import Mathlib

/-!
Verification of the chemical-storage sorting engine of `chemsort_final.py`
(`ppchem_chemsort`). The engine's data model and operations are shallowly
embedded: Python strings become `String`, Python lists become `List`, Python
dicts (which preserve insertion order) become ordered association lists, and
operations that can raise `KeyError` return `Except Unit`.
-/

/-- Model of the Python substring test `needle in hay` restricted to a prefix
position: `isPre n h` is true when `n` is a prefix of `h`. -/
def isPre : List Char → List Char → Bool
  | [], _ => true
  | _ :: _, [] => false
  | a :: as, b :: bs => a == b && isPre as bs

/-- Helper for `strContains`: `needle` occurs as a contiguous sublist. -/
def infixOf (needle : List Char) : List Char → Bool
  | [] => needle.isEmpty
  | c :: t => isPre needle (c :: t) || infixOf needle t

/-- Model of the Python substring operator `needle in hay`. -/
def strContains (hay needle : String) : Bool :=
  infixOf needle.data hay.data

/-- Model of Python `str.lower` for a single ASCII character. -/
def lowerChar (ch : Char) : Char :=
  if 'A' ≤ ch && ch ≤ 'Z' then Char.ofNat (ch.toNat + 32) else ch

/-- Model of Python `str.lower` (the repository only uses ASCII text). -/
def strLower (s : String) : String := ⟨s.data.map lowerChar⟩

/-- Model of Python `str.startswith`. -/
def strStartsWith (s pre : String) : Bool := isPre pre.data s.data

/-- A compound record as consumed by `chemsort_multiple_order_3`: the dict
with keys `name`, `sorted_pictograms`, `hazard_statements`,
`acid_base_class` and `state_room_temp`. -/
structure Compound where
  name : String
  sorted_pictograms : List String
  hazard_statements : List String
  acid_base_class : String
  state_room_temp : String
deriving DecidableEq

/-- Ordered association list modelling a Python dict (insertion order). -/
abbrev Dict (α : Type) := List (String × α)

/-- Python dict lookup `d[k]` as an `Option` (first binding wins). -/
def dictGet {α : Type} : Dict α → String → Option α
  | [], _ => none
  | (k1, v) :: t, k => if k1 == k then some v else dictGet t k

/-- Python dict assignment `d[k] = v`: replaces the value in place if the key
exists, otherwise appends the new binding at the end (insertion order). -/
def dictSet {α : Type} : Dict α → String → α → Dict α
  | [], k, v => [(k, v)]
  | (k1, v1) :: t, k, v =>
    if k1 == k then (k, v) :: t else (k1, v1) :: dictSet t k v

/-- A storage group: a dict from state keys to lists of compounds. -/
abbrev StorageGroup := Dict (List Compound)

/-- The storage registry: a dict from group names to storage groups. -/
abbrev Registry := Dict StorageGroup

/-- The keys of a registry, in insertion order. -/
def registryKeys (sg : Registry) : List String := sg.map Prod.fst

/-- `default_group()` from the source: sub-lists for `solid` and `liquid`
only (there is no `gas` key). -/
def default_group : StorageGroup := [("solid", []), ("liquid", [])]

/-- `default_group_gas()` from the source: a single `gas` sub-list. -/
def default_group_gas : StorageGroup := [("gas", [])]

/-- `initialize_storage_groups()` from the source. -/
def initialize_storage_groups : Registry :=
  [ ("none", default_group),
    ("hazardous_environment", default_group),
    ("acute_toxicity", default_group),
    ("cmr_stot", default_group),
    ("toxicity_2_3", default_group),
    ("acid_corrosive_1", default_group),
    ("acid_irritant", default_group),
    ("base_corrosive_1", default_group),
    ("base_irritant", default_group),
    ("pyrophoric", default_group),
    ("flammable", default_group),
    ("oxidizer", default_group),
    ("explosive", default_group),
    ("compressed_gas", default_group_gas),
    ("nitric_acid", default_group) ]

/-- The `incompatible_pairs` table of `is_chemically_compatible` (rule 2). -/
def isIncompatPair (p1 p2 : String) : Bool :=
  (p1 == "Flammable" && p2 == "Oxidizer") ||
  (p1 == "Flammable" && p2 == "Corrosive") ||
  (p1 == "Corrosive" && p2 == "Oxidizer")

/-- Rule 5 of `is_chemically_compatible`: the group-specific restrictions,
applied to the lower-cased group name. Returns `true` when some group rule
rejects the new compound. -/
def groupRuleRejects (g : String) (np : List String) (nc : String) : Bool :=
  (g == "oxidizer" && (np.contains "Flammable" || np.contains "Corrosive")) ||
  ((g == "flammable" || g == "pyrophoric") &&
    (np.contains "Oxidizer" || np.contains "Corrosive")) ||
  ((strContains g "corrosive" || strContains g "irritant") &&
    (np.contains "Oxidizer" || np.contains "Flammable")) ||
  ((strContains g "toxicity" || g == "cmr_stot") && strContains nc "acid") ||
  (strContains g "acid" &&
    (np.contains "Health Hazard" || np.contains "Acute Toxic"))

/-- `is_chemically_compatible` from the source: the ordered early-return rule
chain over two compound profiles and a target group name. -/
def is_chemically_compatible (existing_pictograms new_pictograms : List String)
    (existing_acid_base_class new_acid_base_class : String)
    (existing_state new_state : String) (group_name : String) : Bool :=
  if (strContains existing_acid_base_class "acid" &&
        strContains new_acid_base_class "base") ||
     (strContains existing_acid_base_class "base" &&
        strContains new_acid_base_class "acid") then false
  else if existing_pictograms.any fun p1 =>
      new_pictograms.any fun p2 => isIncompatPair p1 p2 || isIncompatPair p2 p1
    then false
  else if strContains existing_acid_base_class "acid" &&
      existing_pictograms.contains "Corrosive" &&
      (new_pictograms.contains "Acute Toxic" ||
        new_pictograms.contains "Health Hazard") then false
  else if strContains new_acid_base_class "acid" &&
      new_pictograms.contains "Corrosive" &&
      (existing_pictograms.contains "Acute Toxic" ||
        existing_pictograms.contains "Health Hazard") then false
  else if (existing_state == "solid" && new_state == "liquid") ||
      (existing_state == "liquid" && new_state == "solid") then false
  else if group_name != "" &&
      groupRuleRejects (strLower group_name) new_pictograms
        new_acid_base_class then false
  else true

/-- The `pictogram_priority` table local to `chemsort_multiple_order_3`,
with the dict-lookup default of 100. -/
def pictogramPriority (p : String) : Nat :=
  if p == "Explosive" then 1
  else if p == "Oxidizer" then 2
  else if p == "Flammable" then 3
  else if p == "Corrosive" then 4
  else if p == "Acute Toxic" then 5
  else if p == "Health Hazard" then 5
  else if p == "Irritant" then 6
  else if p == "Environmental Hazard" then 6
  else if p == "Compressed Gas" then 1
  else 100

/-- `compound_priority` from the source: priority of the first pictogram,
or 100 when the compound has none. -/
def compound_priority (c : Compound) : Nat :=
  match c.sorted_pictograms with
  | [] => 100
  | p :: _ => pictogramPriority p

/-- The `phrases_hazard` trigger list from the source. -/
def phrases_hazard : List String :=
  ["may cause genetic defects", "cancer", "may damage fertility",
   "causes damage to organs"]

/-- The `phrases_flam` trigger list from the source. -/
def phrases_flam : List String :=
  ["catches fire spontaneously", "in contact with water emits",
   "may react explosively"]

/-- The state-key derivation of the sorter:
`'liquid' if 'liquid' in state else 'solid' if 'solid' in state else 'gas'`. -/
def stateKeyOf (state : String) : String :=
  if strContains state "liquid" then "liquid"
  else if strContains state "solid" then "solid"
  else "gas"

/-- `is_compatible_with_group` from the source. Dict lookups that would raise
`KeyError` in Python are modelled as `Except.error`. -/
def isCompatibleWithGroup (sg : Registry) (group_name state_key : String)
    (c : Compound) : Except Unit Bool :=
  match dictGet sg group_name with
  | none => .error ()
  | some grp =>
    match dictGet grp state_key with
    | none => .error ()
    | some bucket =>
      if bucket.isEmpty then
        .ok (is_chemically_compatible [] c.sorted_pictograms ""
          c.acid_base_class "" c.state_room_temp group_name)
      else
        .ok (bucket.all fun e =>
          is_chemically_compatible e.sorted_pictograms c.sorted_pictograms
            e.acid_base_class c.acid_base_class e.state_room_temp
            c.state_room_temp group_name)

/-- `storage_groups[g][k].append(c)` from the source, with `KeyError`
modelled as `Except.error`. -/
def registryAppend (sg : Registry) (g k : String) (c : Compound) :
    Except Unit Registry :=
  match dictGet sg g with
  | none => .error ()
  | some grp =>
    match dictGet grp k with
    | none => .error ()
    | some bucket => .ok (dictSet sg g (dictSet grp k (bucket ++ [c])))

/-- The check-then-append pattern of the sorter: append to `g` when the
compatibility check accepts, reporting whether the compound was placed. -/
def condAppend (sg : Registry) (g skey : String) (c : Compound) :
    Except Unit (Registry × Bool) := do
  let ok ← isCompatibleWithGroup sg g skey c
  if ok then
    let sg1 ← registryAppend sg g skey c
    return (sg1, true)
  else
    return (sg, false)

/-- The `if sorted_pictograms:` routing chain of the main loop (step 2 of the
sorter): nitric-acid override, bypass groups, and the pictogram branches. -/
def routeFixed (sg : Registry) (c : Compound) (skey stmts clsLower : String) :
    Except Unit (Registry × Bool) :=
  match c.sorted_pictograms with
  | [] => .ok (sg, false)
  | first_picto :: _ =>
    if strLower c.name == "nitric acid" then do
      let sg1 ← registryAppend sg "nitric_acid" skey c
      return (sg1, true)
    else if first_picto == "Compressed Gas" then do
      let sg1 ← registryAppend sg "compressed_gas" skey c
      return (sg1, true)
    else if first_picto == "Explosive" then do
      let sg1 ← registryAppend sg "explosive" skey c
      return (sg1, true)
    else if first_picto == "Oxidizer" then
      condAppend sg "oxidizer" skey c
    else if first_picto == "Flammable" then
      condAppend sg
        (if phrases_flam.any (fun p => strContains stmts p) then "pyrophoric"
         else "flammable") skey c
    else if first_picto == "Corrosive" then
      if strContains clsLower "base" then
        condAppend sg
          (if strContains stmts "causes severe skin burns and eye damage"
           then "base_corrosive_1" else "base_irritant") skey c
      else if strContains clsLower "acid" then
        condAppend sg
          (if strContains stmts "causes severe skin burns and eye damage"
           then "acid_corrosive_1" else "acid_irritant") skey c
      else .ok (sg, false)
    else if first_picto == "Acute Toxic" || first_picto == "Health Hazard" then
      condAppend sg
        (if strContains stmts "fatal" || strContains stmts "toxic" then
           "acute_toxicity"
         else if phrases_hazard.any (fun p => strContains stmts p) then
           "cmr_stot"
         else "toxicity_2_3") skey c
    else if first_picto == "Irritant" || first_picto == "Environmental Hazard"
      then
      condAppend sg
        (if strContains stmts "toxic to aquatic life" then
           "hazardous_environment"
         else "none") skey c
    else .ok (sg, false)

/-- The fallback loop over existing overflow groups (step 3 of the sorter):
try each `custom_storage_*` group in creation order, placing the compound in
the first accepting one. -/
def tryCustoms (sg : Registry) : List String → String → Compound →
    Except Unit (Registry × Bool)
  | [], _, _ => .ok (sg, false)
  | g :: rest, skey, c => do
    let ok ← isCompatibleWithGroup sg g skey c
    if ok then
      let sg1 ← registryAppend sg g skey c
      return (sg1, true)
    else
      tryCustoms sg rest skey c

/-- The overflow-group name `custom_storage_<n>` (the Python f-string). -/
def customName (n : Nat) : String := "custom_storage_" ++ Nat.repr n

/-- The counter-search `while` loop of step 4, given enough fuel: starting at
`c`, return the first counter value whose `custom_storage_` name is not a key
of the registry. The Python loop needs no fuel because only finitely many
names are taken; `keys.length + 1` candidates always suffice. -/
def findFree (keys : List String) : Nat → Nat → Nat
  | c, 0 => c
  | c, fuel + 1 =>
    if keys.contains (customName c) then findFree keys (c + 1) fuel else c

/-- The running state of the sorter loop: the registry, the local
`custom_group_counter`, and the local `custom_groups` list. -/
structure SortState where
  registry : Registry
  counter : Nat
  customs : List String
deriving DecidableEq

/-- Step 4 of the sorter: create a fresh overflow group with all three state
keys empty and append the compound to its state-key bucket. -/
def createOverflow (sg : Registry) (counter : Nat) (customs : List String)
    (skey : String) (c : Compound) : Except Unit SortState := do
  let n := findFree (registryKeys sg) counter ((registryKeys sg).length + 1)
  let sg1 := dictSet sg (customName n) [("liquid", []), ("solid", []), ("gas", [])]
  let sg2 ← registryAppend sg1 (customName n) skey c
  return ⟨sg2, n, customs ++ [customName n]⟩

/-- One iteration of the main `for compound in compounds` loop of
`chemsort_multiple_order_3`. -/
def sortStep (st : SortState) (c : Compound) : Except Unit SortState := do
  let skey := stateKeyOf c.state_room_temp
  let stmts := strLower (String.intercalate " " c.hazard_statements)
  let clsLower := strLower c.acid_base_class
  let (sg1, s1) ← routeFixed st.registry c skey stmts clsLower
  let (sg2, s2) ←
    if s1 then pure (sg1, true)
    else if c.sorted_pictograms.isEmpty then condAppend sg1 "none" skey c
    else tryCustoms sg1 st.customs skey c
  if s2 then return ⟨sg2, st.counter, st.customs⟩
  else createOverflow sg2 st.counter st.customs skey c

/-- The main loop of the sorter over the priority-sorted compound list. -/
def sortLoop (st : SortState) : List Compound → Except Unit SortState
  | [] => .ok st
  | c :: rest => do sortLoop (← sortStep st c) rest

/-- `chemsort_multiple_order_3` from the source: sort the input stably by
`compound_priority` (Python `sorted` is stable, modelled by insertion sort),
initialise the local overflow bookkeeping from the registry's keys, and run
the placement loop. -/
def chemsort_multiple_order_3 (compounds : List Compound) (sg : Registry) :
    Except Unit Registry := do
  let ordered := compounds.insertionSort
    fun a b => compound_priority a ≤ compound_priority b
  let customs := (registryKeys sg).filter
    fun k => strStartsWith k "custom_storage_"
  let st ← sortLoop ⟨sg, 1, customs⟩ ordered
  return st.registry

/-- Bucket lookup `registry[g][k]` after a run, as an `Option`. -/
def dictGet2 (sg : Registry) (g k : String) : Option (List Compound) :=
  match dictGet sg g with
  | none => none
  | some grp => dictGet grp k

/-- The bucket `registry[g][k]` after sorting `l` into a freshly initialised
registry; `none` when the run raises or the keys are absent. -/
def bucketAfter (l : List Compound) (g k : String) : Option (List Compound) :=
  match chemsort_multiple_order_3 l initialize_storage_groups with
  | .error _ => none
  | .ok sg => dictGet2 sg g k

/-- Total number of compounds stored in a group. -/
def totalGroup (grp : StorageGroup) : Nat :=
  (grp.map fun p => p.2.length).sum

/-- Total number of compounds stored across all buckets of a registry. -/
def totalRegistry (sg : Registry) : Nat :=
  (sg.map fun p => totalGroup p.2).sum

/-- Result type of `classify_acid_base`: the Python function returns either
the string `"Invalid SMILES"`, the string `"unknown"`, or a tuple of tags. -/
inductive ClassifyResult where
  | invalidSMILES : ClassifyResult
  | unknown : ClassifyResult
  | tags : List String → ClassifyResult
deriving DecidableEq

/-- `classify_acid_base` from the source. The structure-dependent inputs are
the out-of-scope RDKit collaborator, modelled at its interface: `parseOk` is
whether `Chem.MolFromSmiles` succeeds, and `foundAcid` / `foundBase` are
whether any acid / base SMARTS substructure pattern matches. -/
def classify_acid_base (name iupac_name : String)
    (ghs_statements : List String) (parseOk foundAcid foundBase : Bool) :
    ClassifyResult :=
  let nameL := strLower name
  let iupacL := strLower iupac_name
  let full_name := nameL ++ " " ++ iupacL
  let r1 : List String :=
    if ghs_statements.any (fun stmt =>
        strContains stmt "H290" ||
        strContains (strLower stmt) "corrosive to metals") then
      ["Unsure (from GHS H290)"]
    else []
  let r2 := r1 ++ (if strContains full_name "acid" then ["acid"] else [])
  let r3 := r2 ++
    (if ["hydroxide", "amine", "ammonia", "amide"].any
        (fun w => strContains full_name w) then ["base"] else [])
  if !parseOk then .invalidSMILES
  else
    let r4 := r3 ++ (if foundAcid then ["acid"] else [])
    let r5 := r4 ++ (if foundBase then ["basic"] else [])
    if r5.isEmpty then .unknown else .tags r5

/-! ### Association-list (Python dict) lemmas -/

theorem dictGet_dictSet {α : Type} (d : Dict α) (k : String) (v : α)
    (k2 : String) :
    dictGet (dictSet d k v) k2 = if k2 == k then some v else dictGet d k2 := by
  induction d with
  | nil =>
    simp only [dictSet, dictGet]
    by_cases h : k == k2
    · have h2 : k = k2 := by simpa using h
      simp [h2]
    · have h2 : ¬(k = k2) := by simpa using h
      simp [h, h2, beq_iff_eq, Ne.symm h2]
  | cons p t ih =>
    obtain ⟨k1, v1⟩ := p
    simp only [dictSet]
    by_cases h : k1 == k
    · have h2 : k1 = k := by simpa using h
      subst h2
      simp only [if_pos h, dictGet]
      by_cases h3 : k1 == k2
      · have h4 : k1 = k2 := by simpa using h3
        simp [h4]
      · have h4 : ¬(k1 = k2) := by simpa using h3
        simp [h3, beq_iff_eq, h4, Ne.symm h4]
    · simp only [if_neg h, dictGet]
      by_cases h3 : k1 == k2
      · have h4 : k1 = k2 := by simpa using h3
        subst h4
        have h5 : ¬(k1 = k) := by simpa using h
        simp [beq_iff_eq, h5]
      · simp [h3, ih]

theorem dictGet_mem_keys {α : Type} (d : Dict α) (k : String) (v : α)
    (h : dictGet d k = some v) : k ∈ d.map Prod.fst := by
  induction d with
  | nil => simp [dictGet] at h
  | cons p t ih =>
    obtain ⟨k1, v1⟩ := p
    simp only [dictGet] at h
    by_cases h2 : k1 == k
    · have h3 : k1 = k := by simpa using h2
      simp [h3]
    · simp only [h2, if_neg] at h
      simp [ih h]

theorem dictGet_isSome_mem_keys {α : Type} (d : Dict α) (k : String)
    (h : (dictGet d k).isSome) : k ∈ d.map Prod.fst := by
  cases h2 : dictGet d k with
  | none => rw [h2] at h; simp at h
  | some v => exact dictGet_mem_keys d k v h2

theorem keys_dictSet_of_mem {α : Type} (d : Dict α) (k : String) (v : α)
    (h : k ∈ d.map Prod.fst) :
    (dictSet d k v).map Prod.fst = d.map Prod.fst := by
  induction d with
  | nil => simp at h
  | cons p t ih =>
    obtain ⟨k1, v1⟩ := p
    simp only [dictSet]
    by_cases h2 : k1 == k
    · have h3 : k1 = k := by simpa using h2
      simp [h2, h3]
    · have h3 : ¬(k1 = k) := by simpa using h2
      simp only [List.map_cons, List.mem_cons] at h
      rcases h with h | h
      · exact absurd h.symm h3
      · simp [h2, ih h]

theorem keys_dictSet_of_not_mem {α : Type} (d : Dict α) (k : String) (v : α)
    (h : k ∉ d.map Prod.fst) :
    (dictSet d k v).map Prod.fst = d.map Prod.fst ++ [k] := by
  induction d with
  | nil => simp [dictSet]
  | cons p t ih =>
    obtain ⟨k1, v1⟩ := p
    simp only [List.map_cons, List.mem_cons] at h
    push_neg at h
    have h2 : ¬(k1 == k) := by simpa using Ne.symm h.1
    simp [dictSet, h2, ih h.2]

theorem totalGroup_dictSet (grp : StorageGroup) (k : String)
    (b b2 : List Compound) (h : dictGet grp k = some b) :
    totalGroup (dictSet grp k b2) + b.length = totalGroup grp + b2.length := by
  induction grp with
  | nil => simp [dictGet] at h
  | cons p t ih =>
    obtain ⟨k1, v1⟩ := p
    simp only [dictGet] at h
    by_cases h2 : k1 == k
    · simp only [h2, if_pos] at h
      obtain rfl : v1 = b := by simpa using h
      simp only [dictSet, h2, if_pos, totalGroup, List.map_cons, List.sum_cons]
      omega
    · simp only [h2, if_neg, Bool.false_eq_true, not_false_iff] at h
      have ih2 := ih h
      simp only [dictSet, h2, if_neg, Bool.false_eq_true, not_false_iff,
        totalGroup, List.map_cons, List.sum_cons] at ih2 ⊢
      omega

theorem totalRegistry_dictSet (sg : Registry) (g : String)
    (grp grp2 : StorageGroup) (h : dictGet sg g = some grp) :
    totalRegistry (dictSet sg g grp2) + totalGroup grp =
      totalRegistry sg + totalGroup grp2 := by
  induction sg with
  | nil => simp [dictGet] at h
  | cons p t ih =>
    obtain ⟨k1, v1⟩ := p
    simp only [dictGet] at h
    by_cases h2 : k1 == g
    · simp only [h2, if_pos] at h
      obtain rfl : v1 = grp := by simpa using h
      simp only [dictSet, h2, if_pos, totalRegistry, List.map_cons,
        List.sum_cons]
      omega
    · simp only [h2, if_neg, Bool.false_eq_true, not_false_iff] at h
      have ih2 := ih h
      simp only [dictSet, h2, if_neg, Bool.false_eq_true, not_false_iff,
        totalRegistry, List.map_cons, List.sum_cons] at ih2 ⊢
      omega

theorem totalRegistry_dictSet_new (sg : Registry) (g : String)
    (grp : StorageGroup) (h : g ∉ sg.map Prod.fst) :
    totalRegistry (dictSet sg g grp) = totalRegistry sg + totalGroup grp := by
  induction sg with
  | nil => simp [dictSet, totalRegistry]
  | cons p t ih =>
    obtain ⟨k1, v1⟩ := p
    simp only [List.map_cons, List.mem_cons] at h
    push_neg at h
    have h2 : ¬(k1 == g) := by simpa using Ne.symm h.1
    simp only [dictSet, h2, if_neg, Bool.false_eq_true, not_false_iff,
      totalRegistry, List.map_cons, List.sum_cons]
    unfold totalRegistry at ih
    rw [ih h.2]
    omega

/-! ### Injectivity of the decimal numeral in overflow-group names -/

theorem toDigitsCore_eq_digits (fuel : Nat) : ∀ (n : Nat) (acc : List Char),
    0 < n → n ≤ fuel →
    Nat.toDigitsCore 10 fuel n acc =
      ((Nat.digits 10 n).map Nat.digitChar).reverse ++ acc := by
  induction fuel with
  | zero => intro n acc hn hf; omega
  | succ fuel ih =>
    intro n acc hn hf
    have hdig : Nat.digits 10 n = n % 10 :: Nat.digits 10 (n / 10) :=
      Nat.digits_def' (by norm_num) hn
    by_cases hdiv : n / 10 = 0
    · simp only [Nat.toDigitsCore, hdiv, if_pos]
      rw [hdig, hdiv]
      simp
    · have hpos : 0 < n / 10 := Nat.pos_of_ne_zero hdiv
      have hlt : n / 10 < n := Nat.div_lt_self hn (by norm_num)
      have hle : n / 10 ≤ fuel := by omega
      simp only [Nat.toDigitsCore, hdiv, if_neg, not_false_iff]
      rw [ih (n / 10) _ hpos hle, hdig]
      simp

theorem repr_data_eq (n : Nat) (hn : 0 < n) :
    (Nat.repr n).data = ((Nat.digits 10 n).map Nat.digitChar).reverse := by
  show (Nat.toDigits 10 n).asString.data = _
  rw [Nat.toDigits, toDigitsCore_eq_digits (n + 1) n [] hn (by omega)]
  simp [List.asString]

theorem map_digitChar_injective : ∀ (l1 l2 : List Nat),
    (∀ d ∈ l1, d < 10) → (∀ d ∈ l2, d < 10) →
    l1.map Nat.digitChar = l2.map Nat.digitChar → l1 = l2 := by
  intro l1
  induction l1 with
  | nil => intro l2 _ _ h; cases l2 <;> simp_all
  | cons a t ih =>
    intro l2 h1 h2 h
    cases l2 with
    | nil => simp at h
    | cons b t2 =>
      simp only [List.map_cons, List.cons.injEq] at h
      have ha : a < 10 := h1 a (by simp)
      have hb : b < 10 := h2 b (by simp)
      have hdij : ∀ x < 10, ∀ y < 10, Nat.digitChar x = Nat.digitChar y →
          x = y := by decide
      have hab : a = b := hdij a ha b hb h.1
      have ht : t = t2 := ih t2 (fun d hd => h1 d (by simp [hd]))
        (fun d hd => h2 d (by simp [hd])) h.2
      rw [hab, ht]

theorem nat_repr_injective : ∀ (m n : Nat), Nat.repr m = Nat.repr n → m = n := by
  have hzero : ∀ k : Nat, 0 < k → Nat.repr k ≠ Nat.repr 0 := by
    intro k hk h
    have h0 : (Nat.repr 0).data = ['0'] := rfl
    have hdata := congrArg String.data h
    rw [repr_data_eq k hk, h0] at hdata
    have : (Nat.digits 10 k).map Nat.digitChar = ['0'] := by
      have := congrArg List.reverse hdata
      simpa using this
    have hlen : (Nat.digits 10 k).length = 1 := by
      have := congrArg List.length this
      simpa using this
    obtain ⟨d, hd⟩ : ∃ d, Nat.digits 10 k = [d] := by
      cases hdig : Nat.digits 10 k with
      | nil => rw [hdig] at hlen; simp at hlen
      | cons x t =>
        refine ⟨x, ?_⟩
        rw [hdig] at hlen
        have ht : t = [] := by simpa using hlen
        rw [ht]
    have hd10 : d < 10 := by
      have := Nat.digits_lt_base (by norm_num) (by rw [hd]; simp :
        d ∈ Nat.digits 10 k)
      exact this
    have hdchar : Nat.digitChar d = '0' := by
      rw [hd] at this
      simpa using this
    have hd0 : d = 0 := by
      have hdij : ∀ x < 10, Nat.digitChar x = '0' → x = 0 := by decide
      exact hdij d hd10 hdchar
    have hofd := Nat.ofDigits_digits 10 k
    rw [hd, hd0] at hofd
    have : k = 0 := by simpa [Nat.ofDigits] using hofd.symm
    omega
  intro m n h
  rcases Nat.eq_zero_or_pos m with hm | hm
  · rcases Nat.eq_zero_or_pos n with hn | hn
    · omega
    · exact absurd (h.symm) (by rw [hm]; exact hzero n hn)
  · rcases Nat.eq_zero_or_pos n with hn | hn
    · exact absurd h (by rw [hn]; exact hzero m hm)
    · have hdata := congrArg String.data h
      rw [repr_data_eq m hm, repr_data_eq n hn] at hdata
      have hmap := List.reverse_injective hdata
      have hdig := map_digitChar_injective _ _
        (fun d hd => Nat.digits_lt_base (by norm_num) hd)
        (fun d hd => Nat.digits_lt_base (by norm_num) hd) hmap
      have h1 := Nat.ofDigits_digits 10 m
      have h2 := Nat.ofDigits_digits 10 n
      rw [← h1, ← h2, hdig]

theorem customName_data (n : Nat) :
    (customName n).data =
      'c' :: 'u' :: 's' :: 't' :: 'o' :: 'm' :: '_' :: 's' :: 't' :: 'o' ::
        'r' :: 'a' :: 'g' :: 'e' :: '_' :: (Nat.repr n).data := by
  show (String.append "custom_storage_" (Nat.repr n)).data = _
  cases h : Nat.repr n with
  | mk d => rfl

theorem customName_injective (a b : Nat) (h : customName a = customName b) :
    a = b := by
  have hdata := congrArg String.data h
  rw [customName_data, customName_data] at hdata
  simp only [List.cons.injEq, true_and] at hdata
  exact nat_repr_injective a b (by
    cases hra : Nat.repr a with
    | mk da =>
      cases hrb : Nat.repr b with
      | mk db =>
        rw [hra, hrb] at hdata
        simp only at hdata
        rw [hdata])

theorem customName_second_char (n : Nat) :
    (customName n).data.tail.head? = some 'u' := by
  rw [customName_data]
  rfl

theorem customName_ne_of_second (n : Nat) (s : String)
    (h : s.data.tail.head? ≠ some 'u') : customName n ≠ s := by
  intro heq
  exact h (heq ▸ customName_second_char n)

theorem customName_not_fixed (n : Nat) :
    customName n ∉ registryKeys initialize_storage_groups := by
  intro h
  have hmem : customName n ∈ ["none", "hazardous_environment",
    "acute_toxicity", "cmr_stot", "toxicity_2_3", "acid_corrosive_1",
    "acid_irritant", "base_corrosive_1", "base_irritant", "pyrophoric",
    "flammable", "oxidizer", "explosive", "compressed_gas", "nitric_acid"] := h
  simp only [List.mem_cons, List.not_mem_nil, or_false] at hmem
  rcases hmem with h1 | h1 | h1 | h1 | h1 | h1 | h1 | h1 | h1 | h1 | h1 | h1 |
    h1 | h1 | h1 <;>
    exact absurd h1 (customName_ne_of_second n _ (by decide))

/-! ### Correctness of the fresh-name search -/

theorem findFree_ge (keys : List String) : ∀ (c fuel : Nat),
    c ≤ findFree keys c fuel := by
  intro c fuel
  induction fuel generalizing c with
  | zero => simp [findFree]
  | succ fuel ih =>
    simp only [findFree]
    by_cases h : keys.contains (customName c) = true
    · rw [if_pos h]
      exact le_trans (by omega) (ih (c + 1))
    · rw [if_neg h]

theorem findFree_not_mem (keys : List String) : ∀ (fuel c : Nat),
    (∃ j, c ≤ j ∧ j < c + fuel ∧ customName j ∉ keys) →
    customName (findFree keys c fuel) ∉ keys := by
  intro fuel
  induction fuel with
  | zero => intro c ⟨j, hj1, hj2, _⟩; omega
  | succ fuel ih =>
    intro c ⟨j, hj1, hj2, hj3⟩
    simp only [findFree]
    by_cases h : keys.contains (customName c)
    · simp only [h, if_pos]
      apply ih (c + 1)
      have hne : j ≠ c := by
        intro heq
        rw [heq] at hj3
        exact hj3 (by simpa using h)
      exact ⟨j, by omega, by omega, hj3⟩
    · simp only [h, if_neg, Bool.false_eq_true, not_false_iff]
      simpa using h

theorem findFree_min (keys : List String) : ∀ (fuel c j : Nat),
    c ≤ j → j < findFree keys c fuel → customName j ∈ keys := by
  intro fuel
  induction fuel with
  | zero => intro c j h1 h2; simp only [findFree] at h2; omega
  | succ fuel ih =>
    intro c j h1 h2
    simp only [findFree] at h2
    by_cases h : keys.contains (customName c) = true
    · rw [if_pos h] at h2
      by_cases hj : j = c
      · rw [hj]; simpa using h
      · exact ih (c + 1) j (by omega) h2
    · rw [if_neg h] at h2; omega

theorem exists_free_in_window (keys : List String) (c : Nat) :
    ∃ j, c ≤ j ∧ j < c + (keys.length + 1) ∧ customName j ∉ keys := by
  by_contra hcon
  push_neg at hcon
  have hsub : ((List.range (keys.length + 1)).map fun i => customName (c + i))
      ⊆ keys := by
    intro x hx
    simp only [List.mem_map, List.mem_range] at hx
    obtain ⟨i, hi, rfl⟩ := hx
    exact hcon (c + i) (by omega) (by omega)
  have hnodup : ((List.range (keys.length + 1)).map
      fun i => customName (c + i)).Nodup := by
    apply List.Nodup.map
    · intro a b hab
      have := customName_injective (c + a) (c + b) hab
      omega
    · exact List.nodup_range _
  have hlen := (List.subperm_of_subset hnodup hsub).length_le
  simp at hlen

/-! ### The rule chain as a single boolean condition -/

theorem compat_eq_not_or (ep np : List String) (ec nc es ns g : String) :
    is_chemically_compatible ep np ec nc es ns g =
      !(((strContains ec "acid" && strContains nc "base") ||
          (strContains ec "base" && strContains nc "acid")) ||
        (ep.any fun p1 =>
          np.any fun p2 => isIncompatPair p1 p2 || isIncompatPair p2 p1) ||
        (strContains ec "acid" && ep.contains "Corrosive" &&
          (np.contains "Acute Toxic" || np.contains "Health Hazard")) ||
        (strContains nc "acid" && np.contains "Corrosive" &&
          (ep.contains "Acute Toxic" || ep.contains "Health Hazard")) ||
        ((es == "solid" && ns == "liquid") ||
          (es == "liquid" && ns == "solid")) ||
        (g != "" && groupRuleRejects (strLower g) np nc)) := by
  unfold is_chemically_compatible
  by_cases h1 : ((strContains ec "acid" && strContains nc "base") ||
      (strContains ec "base" && strContains nc "acid")) = true
  · rw [if_pos h1, h1]
    simp only [Bool.true_or, Bool.not_true]
  rw [if_neg h1]
  rw [Bool.not_eq_true] at h1
  by_cases h2 : (ep.any fun p1 =>
      np.any fun p2 => isIncompatPair p1 p2 || isIncompatPair p2 p1) = true
  · rw [if_pos h2, h2]
    simp only [Bool.true_or, Bool.or_true, Bool.not_true]
  rw [if_neg h2]
  rw [Bool.not_eq_true] at h2
  by_cases h3 : (strContains ec "acid" && ep.contains "Corrosive" &&
      (np.contains "Acute Toxic" || np.contains "Health Hazard")) = true
  · rw [if_pos h3, h3]
    simp only [Bool.true_or, Bool.or_true, Bool.not_true]
  rw [if_neg h3]
  rw [Bool.not_eq_true] at h3
  by_cases h4 : (strContains nc "acid" && np.contains "Corrosive" &&
      (ep.contains "Acute Toxic" || ep.contains "Health Hazard")) = true
  · rw [if_pos h4, h4]
    simp only [Bool.true_or, Bool.or_true, Bool.not_true]
  rw [if_neg h4]
  rw [Bool.not_eq_true] at h4
  by_cases h5 : ((es == "solid" && ns == "liquid") ||
      (es == "liquid" && ns == "solid")) = true
  · rw [if_pos h5, h5]
    simp only [Bool.true_or, Bool.or_true, Bool.not_true]
  rw [if_neg h5]
  rw [Bool.not_eq_true] at h5
  by_cases h6 : (g != "" &&
      groupRuleRejects (strLower g) np nc) = true
  · rw [if_pos h6, h6]
    simp only [Bool.true_or, Bool.or_true, Bool.not_true]
  rw [if_neg h6]
  rw [Bool.not_eq_true] at h6
  rw [h1, h2, h3, h4, h5, h6]
  simp only [Bool.or_false, Bool.not_false]

theorem any_pair_swap (l1 l2 : List String) (f : String → String → Bool) :
    (l1.any fun a => l2.any fun b => f a b || f b a) =
    (l2.any fun a => l1.any fun b => f a b || f b a) := by
  have h : ∀ (u v : List String),
      (u.any fun a => v.any fun b => f a b || f b a) = true →
      (v.any fun a => u.any fun b => f a b || f b a) = true := by
    intro u v huv
    simp only [List.any_eq_true] at huv ⊢
    obtain ⟨a, ha, b, hb, hf⟩ := huv
    exact ⟨b, hb, a, ha, by simpa [Bool.or_comm] using hf⟩
  cases h1 : (l1.any fun a => l2.any fun b => f a b || f b a) with
  | true => exact (h l1 l2 h1).symm
  | false =>
    cases h2 : (l2.any fun a => l1.any fun b => f a b || f b a) with
    | true =>
      rw [h l2 l1 h2] at h1
      simp at h1
    | false => rfl

/-- Claim C10: with an empty target group name (so that rule 5 is skipped),
`is_chemically_compatible` is symmetric in its two compound profiles: rules
1 to 4 each test both directions, so swapping the existing and the new
compound's pictograms, acid/base class and state gives the same result. -/
theorem is_chemically_compatible_symm (ep np : List String)
    (ec nc es ns : String) :
    is_chemically_compatible ep np ec nc es ns "" =
    is_chemically_compatible np ep nc ec ns es "" := by
  rw [compat_eq_not_or, compat_eq_not_or, any_pair_swap np ep]
  have hg : ("" != "") = false := rfl
  simp only [hg, Bool.false_and, Bool.or_false]
  generalize strContains ec "acid" = x1
  generalize strContains nc "base" = x2
  generalize strContains ec "base" = x3
  generalize strContains nc "acid" = x4
  generalize (ep.any fun p1 =>
    np.any fun p2 => isIncompatPair p1 p2 || isIncompatPair p2 p1) = x5
  generalize ep.contains "Corrosive" = x6
  generalize np.contains "Acute Toxic" = x7
  generalize np.contains "Health Hazard" = x8
  generalize np.contains "Corrosive" = x9
  generalize ep.contains "Acute Toxic" = x10
  generalize ep.contains "Health Hazard" = x11
  generalize (es == "solid") = x12
  generalize (ns == "liquid") = x13
  generalize (es == "liquid") = x14
  generalize (ns == "solid") = x15
  revert x1 x2 x3 x4 x5 x6 x7 x8 x9 x10 x11 x12 x13 x14 x15
  decide

/-! ### Classifier sentinels (C9) -/

/-- Counterexample to claim C9: with hazard statements that trigger only the
H290 uncertainty step (step (b)), a parsable structure, and no tag found by
steps (c) to (f), `classify_acid_base` returns the H290 uncertainty tuple,
not the `unknown` sentinel. -/
theorem classify_unknown_cex :
    classify_acid_base "x" "y" ["H290 warning"] true false false =
      ClassifyResult.tags ["Unsure (from GHS H290)"] ∧
    classify_acid_base "x" "y" ["H290 warning"] true false false ≠
      ClassifyResult.unknown ∧
    strContains (strLower "x" ++ " " ++ strLower "y") "acid" = false ∧
    (["hydroxide", "amine", "ammonia", "amide"].any fun w =>
      strContains (strLower "x" ++ " " ++ strLower "y") w) = false := by
  refine ⟨by decide, by decide, by decide, by decide⟩

/-- Claim C9 as amended: if the structure notation fails to parse, the result
is exactly the invalid-structure sentinel (textual tags are discarded); and
if the structure parses and steps (b) to (f) all find no tag — including the
H290 uncertainty step (b) — the result is exactly the unknown sentinel. -/
theorem classify_sentinel_results (name iupac_name : String)
    (ghs_statements : List String) (parseOk foundAcid foundBase : Bool) :
    (parseOk = false →
      classify_acid_base name iupac_name ghs_statements parseOk foundAcid
        foundBase = ClassifyResult.invalidSMILES) ∧
    ((ghs_statements.any fun stmt =>
        strContains stmt "H290" ||
        strContains (strLower stmt) "corrosive to metals") = false →
      strContains (strLower name ++ " " ++ strLower iupac_name) "acid"
        = false →
      (["hydroxide", "amine", "ammonia", "amide"].any fun w =>
        strContains (strLower name ++ " " ++ strLower iupac_name) w)
        = false →
      foundAcid = false → foundBase = false → parseOk = true →
      classify_acid_base name iupac_name ghs_statements parseOk foundAcid
        foundBase = ClassifyResult.unknown) := by
  constructor
  · intro h
    simp [classify_acid_base, h]
  · intro h1 h2 h3 h4 h5 h6
    simp [classify_acid_base, h1, h2, h3, h4, h5, h6]

/-- Witness for `classify_sentinel_results` at a concrete input: an
unremarkable compound with a parsable structure is classified `unknown`. -/
theorem classify_sentinel_results_witness :
    classify_acid_base "water" "oxidane" [] true false false =
      ClassifyResult.unknown :=
  (classify_sentinel_results "water" "oxidane" [] true false false).2
    (by decide) (by decide) (by decide) rfl rfl rfl

/-! ### Registry initialisation (C3) -/

/-- Counterexample to claim C3: the `none` group created by
`initialize_storage_groups` has no `gas` sub-list at all (its schema is
`solid`/`liquid` only), while the claim asserts three state keys for every
group except `compressed_gas`. -/
theorem initialize_no_gas_key_cex :
    dictGet2 initialize_storage_groups "none" "gas" = none ∧
    (dictGet initialize_storage_groups "none").isSome = true := by
  refine ⟨by decide, by decide⟩

/-- Claim C3 as amended: `initialize_storage_groups` creates exactly the
fifteen fixed groups, in order; each group other than `compressed_gas` has
exactly the two state-keyed sub-lists `solid` and `liquid` (both empty), and
the reduced gas-only group `compressed_gas` has only the `gas` key (empty). -/
theorem initialize_storage_groups_shape :
    registryKeys initialize_storage_groups =
      ["none", "hazardous_environment", "acute_toxicity", "cmr_stot",
       "toxicity_2_3", "acid_corrosive_1", "acid_irritant",
       "base_corrosive_1", "base_irritant", "pyrophoric", "flammable",
       "oxidizer", "explosive", "compressed_gas", "nitric_acid"] ∧
    (∀ g ∈ ["none", "hazardous_environment", "acute_toxicity", "cmr_stot",
       "toxicity_2_3", "acid_corrosive_1", "acid_irritant",
       "base_corrosive_1", "base_irritant", "pyrophoric", "flammable",
       "oxidizer", "explosive", "nitric_acid"],
      dictGet initialize_storage_groups g =
        some [("solid", []), ("liquid", [])]) ∧
    dictGet initialize_storage_groups "compressed_gas" =
      some [("gas", [])] := by
  refine ⟨by decide, by decide, by decide⟩

/-! ### Concrete counterexample runs of the sorter -/

/-- Counterexample to claim C1: a single well-formed gas-state compound with
no pictograms makes `chemsort_multiple_order_3` raise a `KeyError` (the
`none` group has no `gas` bucket), so no compound is placed at all and the
total-placement property fails. -/
theorem chemsort_total_placement_cex :
    chemsort_multiple_order_3 [⟨"argon", [], [], "neutral", "gas"⟩]
      initialize_storage_groups = .error () := rfl

/-- Counterexample to claim C2: a well-formed liquid compound whose dominant
pictogram is `Compressed Gas` makes the engine raise a `KeyError`: the bypass
route appends to `compressed_gas[stateKey]`, and the gas-only
`compressed_gas` group has no `liquid` bucket. -/
theorem chemsort_fatal_error_cex :
    chemsort_multiple_order_3
      [⟨"refrigerant", ["Compressed Gas"], [], "neutral", "liquid"⟩]
      initialize_storage_groups = .error () := rfl

/-- Counterexample to claim C4: a compound named `nitric acid` with an empty
pictogram list is not routed to `nitric_acid` (the special case sits inside
the non-empty-pictogram branch); it lands in the `none` group instead. -/
theorem nitric_acid_empty_pictograms_cex :
    bucketAfter [⟨"nitric acid", [], [], "acid", "solid"⟩]
      "nitric_acid" "solid" = some [] ∧
    bucketAfter [⟨"nitric acid", [], [], "acid", "solid"⟩]
      "none" "solid" = some [⟨"nitric acid", [], [], "acid", "solid"⟩] := by
  refine ⟨by decide, by decide⟩

/-- Counterexample to claim C5: two distinct corrosive liquid compounds, one
acid-classed and one base-classed, both named `nitric acid` (in different
cases), are forced by the nitric-acid bypass into the very same
`nitric_acid`/`liquid` bucket — the acid/base segregation claim fails. -/
theorem acid_base_same_bucket_cex :
    bucketAfter [⟨"Nitric Acid", ["Corrosive"], [], "acid", "liquid"⟩,
                 ⟨"nitric ACID", ["Corrosive"], [], "base", "liquid"⟩]
      "nitric_acid" "liquid" =
      some [⟨"Nitric Acid", ["Corrosive"], [], "acid", "liquid"⟩,
            ⟨"nitric ACID", ["Corrosive"], [], "base", "liquid"⟩] := by
  decide

/-- Compatibility of a compound with a group after a run, as an `Option`. -/
def isCompatAfter (l : List Compound) (g k : String) (c : Compound) :
    Option Bool :=
  match chemsort_multiple_order_3 l initialize_storage_groups with
  | .error _ => none
  | .ok sg =>
    match isCompatibleWithGroup sg g k c with
    | .error _ => none
    | .ok b => some b

/-- The four-compound run used as the counterexample for claim C6. -/
def fallbackCexInput : List Compound :=
  [⟨"ox1", ["Oxidizer"], [], "neutral", "solid"⟩,
   ⟨"ox2", ["Oxidizer", "Corrosive"], [], "neutral", "solid"⟩,
   ⟨"a", [], [], "acid", "solid"⟩,
   ⟨"b", [], [], "base", "solid"⟩]

/-- Counterexample to claim C6: the compound `b` has no pictograms and its
`none`-group check fails (the acid `a` already sits there), yet the sorter
never tries the existing overflow group `custom_storage_1` — which would
accept `b` — and instead creates `custom_storage_2` for it. -/
theorem overflow_fallback_skipped_cex :
    bucketAfter fallbackCexInput "custom_storage_2" "solid" =
      some [⟨"b", [], [], "base", "solid"⟩] ∧
    isCompatAfter fallbackCexInput "custom_storage_1" "solid"
      ⟨"b", [], [], "base", "solid"⟩ = some true := by
  refine ⟨by decide, by decide⟩

/-- Counterexample to claim C8: a compound whose dominant pictogram is
`Oxidizer` but that also carries `Corrosive` is rejected from the empty
`oxidizer` group by rule 5 (a group-level rule that needs no occupant), so
first placement into an empty registry lands in `custom_storage_1`. -/
theorem oxidizer_first_placement_cex :
    bucketAfter [⟨"x", ["Oxidizer", "Corrosive"], [], "neutral", "liquid"⟩]
      "oxidizer" "liquid" = some [] ∧
    bucketAfter [⟨"x", ["Oxidizer", "Corrosive"], [], "neutral", "liquid"⟩]
      "custom_storage_1" "liquid" =
      some [⟨"x", ["Oxidizer", "Corrosive"], [], "neutral", "liquid"⟩] := by
  refine ⟨by decide, by decide⟩

/-! ### Preservation machinery for the sorter (claims C1 and C2) -/

/-- The fifteen fixed group names. -/
def fixedNames : List String := registryKeys initialize_storage_groups

/-- The fourteen fixed group names whose groups carry `solid` and `liquid`
buckets (all fixed groups except the gas-only `compressed_gas`). -/
def fixedNamesSL : List String :=
  ["none", "hazardous_environment", "acute_toxicity", "cmr_stot",
   "toxicity_2_3", "acid_corrosive_1", "acid_irritant", "base_corrosive_1",
   "base_irritant", "pyrophoric", "flammable", "oxidizer", "explosive",
   "nitric_acid"]

theorem fixedNamesSL_sub :
    ∀ g ∈ fixedNamesSL, g ∈ registryKeys initialize_storage_groups := by
  decide

/-- A group lookup that found a group holding both a `solid` and a `liquid`
bucket. -/
def groupHasSL (o : Option StorageGroup) : Bool :=
  match o with
  | some grp => (dictGet grp "solid").isSome && (dictGet grp "liquid").isSome
  | none => false

/-- Loop invariant of the sorter: every fixed group and every tracked
overflow group is present with `solid` and `liquid` buckets. -/
def GoodState (st : SortState) : Prop :=
  (∀ g ∈ fixedNamesSL, groupHasSL (dictGet st.registry g) = true) ∧
  (∀ g ∈ st.customs, groupHasSL (dictGet st.registry g) = true)

/-- A compound record the engine can process without a `KeyError`: its state
key is `solid` or `liquid` and its dominant pictogram is not
`Compressed Gas`. -/
def goodCompound (c : Compound) : Prop :=
  (stateKeyOf c.state_room_temp = "solid" ∨
    stateKeyOf c.state_room_temp = "liquid") ∧
  c.sorted_pictograms.head? ≠ some "Compressed Gas"

theorem except_bind_ok {α β : Type} (a : α) (f : α → Except Unit β) :
    ((Except.ok a : Except Unit α) >>= f) = f a := rfl

theorem groupHasSL_isSome (o : Option StorageGroup)
    (h : groupHasSL o = true) : o.isSome := by
  cases o with
  | none => simp [groupHasSL] at h
  | some grp => rfl

theorem isCompatibleWithGroup_ok (sg : Registry) (g skey : String)
    (c : Compound) (h : groupHasSL (dictGet sg g) = true)
    (hs : skey = "solid" ∨ skey = "liquid") :
    ∃ b, isCompatibleWithGroup sg g skey c = .ok b := by
  cases hget : dictGet sg g with
  | none => rw [hget] at h; simp [groupHasSL] at h
  | some grp =>
    rw [hget] at h
    simp only [groupHasSL, Bool.and_eq_true, Option.isSome_iff_exists] at h
    obtain ⟨⟨bs, hbs⟩, ⟨bl, hbl⟩⟩ := h
    have hbucket : ∃ bk, dictGet grp skey = some bk := by
      rcases hs with hs | hs <;> rw [hs]
      · exact ⟨bs, hbs⟩
      · exact ⟨bl, hbl⟩
    obtain ⟨bk, hbk⟩ := hbucket
    simp only [isCompatibleWithGroup, hget, hbk]
    by_cases he : bk.isEmpty
    · rw [if_pos he]
      exact ⟨_, rfl⟩
    · rw [if_neg he]
      exact ⟨_, rfl⟩

theorem registryAppend_ok (sg : Registry) (g skey : String) (c : Compound)
    (h : groupHasSL (dictGet sg g) = true)
    (hs : skey = "solid" ∨ skey = "liquid") :
    ∃ sg2, registryAppend sg g skey c = .ok sg2 ∧
      (∀ g2, groupHasSL (dictGet sg2 g2) = groupHasSL (dictGet sg g2)) ∧
      totalRegistry sg2 = totalRegistry sg + 1 ∧
      registryKeys sg2 = registryKeys sg := by
  cases hget : dictGet sg g with
  | none => rw [hget] at h; simp [groupHasSL] at h
  | some grp =>
    rw [hget] at h
    simp only [groupHasSL, Bool.and_eq_true, Option.isSome_iff_exists] at h
    obtain ⟨⟨bs, hbs⟩, ⟨bl, hbl⟩⟩ := h
    have hbucket : ∃ bk, dictGet grp skey = some bk := by
      rcases hs with hs | hs <;> rw [hs]
      · exact ⟨bs, hbs⟩
      · exact ⟨bl, hbl⟩
    obtain ⟨bk, hbk⟩ := hbucket
    refine ⟨dictSet sg g (dictSet grp skey (bk ++ [c])), ?_, ?_, ?_, ?_⟩
    · simp only [registryAppend, hget, hbk]
    · intro g2
      rw [dictGet_dictSet]
      by_cases hg2 : g2 == g
      · rw [if_pos hg2]
        have hg2e : g2 = g := by simpa using hg2
        rw [hg2e, hget]
        simp only [groupHasSL]
        rw [dictGet_dictSet, dictGet_dictSet]
        by_cases hsolid : ("solid" == skey)
        · rw [if_pos hsolid]
          have : ¬("liquid" == skey) = true := by
            have he : "solid" = skey := by simpa using hsolid
            rw [← he]
            decide
          rw [if_neg this]
          simp [hbs, hbl]
        · rw [if_neg hsolid]
          have he2 : ("liquid" == skey) = true := by
            rcases hs with hs | hs <;> rw [hs]
            · exact absurd (by rw [hs] at hsolid ⊢; simp) hsolid
            · simp
          rw [if_pos he2]
          simp [hbs, hbl]
      · rw [if_neg hg2]
    · have ht1 := totalGroup_dictSet grp skey bk (bk ++ [c]) hbk
      have ht2 := totalRegistry_dictSet sg g grp
        (dictSet grp skey (bk ++ [c])) hget
      simp only [List.length_append, List.length_singleton] at ht1
      omega
    · exact keys_dictSet_of_mem sg g _ (dictGet_mem_keys sg g grp hget)

theorem condAppend_ok (sg : Registry) (g skey : String) (c : Compound)
    (h : groupHasSL (dictGet sg g) = true)
    (hs : skey = "solid" ∨ skey = "liquid") :
    ∃ sg2 placed, condAppend sg g skey c = .ok (sg2, placed) ∧
      (∀ g2, groupHasSL (dictGet sg2 g2) = groupHasSL (dictGet sg g2)) ∧
      totalRegistry sg2 = totalRegistry sg + placed.toNat ∧
      registryKeys sg2 = registryKeys sg := by
  obtain ⟨b, hb⟩ := isCompatibleWithGroup_ok sg g skey c h hs
  cases b with
  | true =>
    obtain ⟨sg2, happ, hpt, htot, hkeys⟩ := registryAppend_ok sg g skey c h hs
    refine ⟨sg2, true, ?_, hpt, by simpa using htot, hkeys⟩
    simp only [condAppend, hb, except_bind_ok, if_pos, happ]
    rfl
  | false =>
    refine ⟨sg, false, ?_, fun g2 => rfl, by simp, rfl⟩
    simp only [condAppend, hb, except_bind_ok]
    rfl

theorem tryCustoms_ok (sg : Registry) (customs : List String) (skey : String)
    (c : Compound) (h : ∀ g ∈ customs, groupHasSL (dictGet sg g) = true)
    (hs : skey = "solid" ∨ skey = "liquid") :
    ∃ sg2 placed, tryCustoms sg customs skey c = .ok (sg2, placed) ∧
      (∀ g2, groupHasSL (dictGet sg2 g2) = groupHasSL (dictGet sg g2)) ∧
      totalRegistry sg2 = totalRegistry sg + placed.toNat ∧
      registryKeys sg2 = registryKeys sg := by
  induction customs with
  | nil => exact ⟨sg, false, rfl, fun g2 => rfl, by simp, rfl⟩
  | cons g rest ih =>
    have hg : groupHasSL (dictGet sg g) = true := h g (by simp)
    obtain ⟨b, hb⟩ := isCompatibleWithGroup_ok sg g skey c hg hs
    cases b with
    | true =>
      obtain ⟨sg2, happ, hpt, htot, hkeys⟩ :=
        registryAppend_ok sg g skey c hg hs
      refine ⟨sg2, true, ?_, hpt, by simpa using htot, hkeys⟩
      simp only [tryCustoms, hb, except_bind_ok, happ]
      rfl
    | false =>
      obtain ⟨sg2, placed, hrec, hpt, htot, hkeys⟩ :=
        ih (fun g2 hg2 => h g2 (by simp [hg2]))
      refine ⟨sg2, placed, ?_, hpt, htot, hkeys⟩
      simp only [tryCustoms, hb, except_bind_ok]
      exact hrec

theorem createOverflow_ok (sg : Registry) (counter : Nat)
    (customs : List String) (skey : String) (c : Compound)
    (hs : skey = "liquid" ∨ skey = "solid" ∨ skey = "gas") :
    ∃ st2, createOverflow sg counter customs skey c = .ok st2 ∧
      st2.customs = customs ++ [customName st2.counter] ∧
      (∀ g2, g2 ≠ customName st2.counter →
        dictGet st2.registry g2 = dictGet sg g2) ∧
      groupHasSL (dictGet st2.registry (customName st2.counter)) = true ∧
      totalRegistry st2.registry = totalRegistry sg + 1 ∧
      customName st2.counter ∉ registryKeys sg := by
  set n := findFree (registryKeys sg) counter ((registryKeys sg).length + 1)
    with hn
  have hfresh : customName n ∉ registryKeys sg := by
    apply findFree_not_mem
    exact exists_free_in_window (registryKeys sg) counter
  have hget1 : dictGet
      (dictSet sg (customName n) [("liquid", []), ("solid", []), ("gas", [])])
      (customName n) =
      some [("liquid", []), ("solid", []), ("gas", [])] := by
    rw [dictGet_dictSet]
    simp
  have hbk : dictGet ([("liquid", []), ("solid", []), ("gas", [])] :
      StorageGroup) skey = some [] := by
    rcases hs with hs | hs | hs <;> rw [hs] <;> rfl
  refine ⟨⟨dictSet
      (dictSet sg (customName n) [("liquid", []), ("solid", []), ("gas", [])])
      (customName n) (dictSet [("liquid", []), ("solid", []), ("gas", [])]
        skey ([] ++ [c])), n, customs ++ [customName n]⟩, ?_, rfl, ?_, ?_, ?_,
      hfresh⟩
  · simp only [createOverflow, ← hn, registryAppend, hget1, hbk,
      except_bind_ok]
    rfl
  · intro g2 hg2
    simp only
    rw [dictGet_dictSet, dictGet_dictSet]
    have hg2b : ¬(g2 == customName n) = true := by simpa using hg2
    rw [if_neg hg2b, if_neg hg2b]
  · simp only
    rw [dictGet_dictSet]
    rw [if_pos (by simp : (customName n == customName n) = true)]
    simp only [groupHasSL]
    rw [dictGet_dictSet, dictGet_dictSet]
    rcases hs with hs | hs | hs <;> rw [hs] <;> rfl
  · simp only
    have h1 : totalRegistry (dictSet sg (customName n)
        [("liquid", []), ("solid", []), ("gas", [])]) =
        totalRegistry sg + totalGroup
          [("liquid", []), ("solid", []), ("gas", [])] := by
      apply totalRegistry_dictSet_new
      exact hfresh
    have h2 := totalRegistry_dictSet
      (dictSet sg (customName n) [("liquid", []), ("solid", []), ("gas", [])])
      (customName n) [("liquid", []), ("solid", []), ("gas", [])]
      (dictSet [("liquid", []), ("solid", []), ("gas", [])] skey ([] ++ [c]))
      hget1
    have h3 : totalGroup ([("liquid", []), ("solid", []), ("gas", [])] :
        StorageGroup) = 0 := rfl
    have h4 : totalGroup (dictSet
        [("liquid", []), ("solid", []), ("gas", [])] skey ([] ++ [c])) = 1 := by
      rcases hs with hs | hs | hs <;> rw [hs] <;> simp [dictSet, totalGroup]
    omega

theorem routeFixed_ok (sg : Registry) (c : Compound)
    (skey stmts clsLower : String)
    (hfix : ∀ g ∈ fixedNamesSL, groupHasSL (dictGet sg g) = true)
    (hs : skey = "solid" ∨ skey = "liquid")
    (hcg : c.sorted_pictograms.head? ≠ some "Compressed Gas") :
    ∃ sg1 placed, routeFixed sg c skey stmts clsLower = .ok (sg1, placed) ∧
      (∀ g2, groupHasSL (dictGet sg1 g2) = groupHasSL (dictGet sg g2)) ∧
      totalRegistry sg1 = totalRegistry sg + placed.toNat ∧
      registryKeys sg1 = registryKeys sg := by
  unfold routeFixed
  cases hp : c.sorted_pictograms with
  | nil => exact ⟨sg, false, rfl, fun g2 => rfl, by simp, rfl⟩
  | cons first rest =>
    dsimp only
    by_cases hb1 : (strLower c.name == "nitric acid") = true
    · rw [if_pos hb1]
      obtain ⟨sg2, happ, hpt, htot, hkeys⟩ :=
        registryAppend_ok sg "nitric_acid" skey c (hfix _ (by decide)) hs
      refine ⟨sg2, true, ?_, hpt, by simpa using htot, hkeys⟩
      rw [happ]
      rfl
    rw [if_neg hb1]
    have hb2 : ¬(first == "Compressed Gas") = true := by
      rw [hp] at hcg
      simpa using hcg
    rw [if_neg hb2]
    by_cases hb3 : (first == "Explosive") = true
    · rw [if_pos hb3]
      obtain ⟨sg2, happ, hpt, htot, hkeys⟩ :=
        registryAppend_ok sg "explosive" skey c (hfix _ (by decide)) hs
      refine ⟨sg2, true, ?_, hpt, by simpa using htot, hkeys⟩
      rw [happ]
      rfl
    rw [if_neg hb3]
    by_cases hb4 : (first == "Oxidizer") = true
    · rw [if_pos hb4]
      exact condAppend_ok sg "oxidizer" skey c (hfix _ (by decide)) hs
    rw [if_neg hb4]
    by_cases hb5 : (first == "Flammable") = true
    · rw [if_pos hb5]
      by_cases hf : (phrases_flam.any fun p => strContains stmts p) = true
      · rw [if_pos hf]
        exact condAppend_ok sg "pyrophoric" skey c (hfix _ (by decide)) hs
      · rw [if_neg hf]
        exact condAppend_ok sg "flammable" skey c (hfix _ (by decide)) hs
    rw [if_neg hb5]
    by_cases hb6 : (first == "Corrosive") = true
    · rw [if_pos hb6]
      by_cases hbase : (strContains clsLower "base") = true
      · rw [if_pos hbase]
        by_cases hsev :
            (strContains stmts "causes severe skin burns and eye damage")
              = true
        · rw [if_pos hsev]
          exact condAppend_ok sg "base_corrosive_1" skey c
            (hfix _ (by decide)) hs
        · rw [if_neg hsev]
          exact condAppend_ok sg "base_irritant" skey c
            (hfix _ (by decide)) hs
      rw [if_neg hbase]
      by_cases hacid : (strContains clsLower "acid") = true
      · rw [if_pos hacid]
        by_cases hsev :
            (strContains stmts "causes severe skin burns and eye damage")
              = true
        · rw [if_pos hsev]
          exact condAppend_ok sg "acid_corrosive_1" skey c
            (hfix _ (by decide)) hs
        · rw [if_neg hsev]
          exact condAppend_ok sg "acid_irritant" skey c
            (hfix _ (by decide)) hs
      · rw [if_neg hacid]
        exact ⟨sg, false, rfl, fun g2 => rfl, by simp, rfl⟩
    rw [if_neg hb6]
    by_cases hb7 : (first == "Acute Toxic" || first == "Health Hazard") = true
    · rw [if_pos hb7]
      by_cases hft : (strContains stmts "fatal" || strContains stmts "toxic")
          = true
      · rw [if_pos hft]
        exact condAppend_ok sg "acute_toxicity" skey c
          (hfix _ (by decide)) hs
      rw [if_neg hft]
      by_cases hph : (phrases_hazard.any fun p => strContains stmts p) = true
      · rw [if_pos hph]
        exact condAppend_ok sg "cmr_stot" skey c (hfix _ (by decide)) hs
      · rw [if_neg hph]
        exact condAppend_ok sg "toxicity_2_3" skey c (hfix _ (by decide)) hs
    rw [if_neg hb7]
    by_cases hb8 : (first == "Irritant" || first == "Environmental Hazard")
        = true
    · rw [if_pos hb8]
      by_cases haq : (strContains stmts "toxic to aquatic life") = true
      · rw [if_pos haq]
        exact condAppend_ok sg "hazardous_environment" skey c
          (hfix _ (by decide)) hs
      · rw [if_neg haq]
        exact condAppend_ok sg "none" skey c (hfix _ (by decide)) hs
    · rw [if_neg hb8]
      exact ⟨sg, false, rfl, fun g2 => rfl, by simp, rfl⟩

theorem createOverflow_good (sg2 : Registry) (counter : Nat)
    (customs : List String) (c : Compound)
    (hfix2 : ∀ g ∈ fixedNamesSL, groupHasSL (dictGet sg2 g) = true)
    (hcust2 : ∀ g ∈ customs, groupHasSL (dictGet sg2 g) = true)
    (hs : stateKeyOf c.state_room_temp = "solid" ∨
      stateKeyOf c.state_room_temp = "liquid") :
    ∃ st2, createOverflow sg2 counter customs
        (stateKeyOf c.state_room_temp) c = .ok st2 ∧ GoodState st2 ∧
      totalRegistry st2.registry = totalRegistry sg2 + 1 := by
  have hs3 : stateKeyOf c.state_room_temp = "liquid" ∨
      stateKeyOf c.state_room_temp = "solid" ∨
      stateKeyOf c.state_room_temp = "gas" := by
    rcases hs with hs | hs <;> simp [hs]
  obtain ⟨st2, hco, hcust, hpt, hnew, htot, hfresh⟩ :=
    createOverflow_ok sg2 counter customs (stateKeyOf c.state_room_temp) c hs3
  refine ⟨st2, hco, ⟨?_, ?_⟩, htot⟩
  · intro g hg
    have hne : g ≠ customName st2.counter := by
      intro heq
      exact customName_not_fixed st2.counter
        (heq ▸ fixedNamesSL_sub g hg)
    rw [hpt g hne]
    exact hfix2 g hg
  · intro g hg
    rw [hcust] at hg
    rcases List.mem_append.mp hg with hg | hg
    · have hgood := hcust2 g hg
      have hne : g ≠ customName st2.counter := by
        intro heq
        apply hfresh
        rw [← heq]
        exact dictGet_isSome_mem_keys sg2 g (groupHasSL_isSome _ hgood)
      rw [hpt g hne]
      exact hgood
    · have hge : g = customName st2.counter := by simpa using hg
      rw [hge]
      exact hnew

theorem sortStep_ok (st : SortState) (c : Compound) (hG : GoodState st)
    (hc : goodCompound c) :
    ∃ st2, sortStep st c = .ok st2 ∧ GoodState st2 ∧
      totalRegistry st2.registry = totalRegistry st.registry + 1 := by
  obtain ⟨hfix, hcust⟩ := hG
  have hs := hc.1
  obtain ⟨sg1, p1, hroute, hpt1, htot1, hkeys1⟩ :=
    routeFixed_ok st.registry c (stateKeyOf c.state_room_temp)
      (strLower (String.intercalate " " c.hazard_statements))
      (strLower c.acid_base_class) hfix hs hc.2
  simp only [sortStep]
  rw [hroute, except_bind_ok]
  dsimp only
  cases p1 with
  | true =>
    rw [if_pos rfl]
    refine ⟨⟨sg1, st.counter, st.customs⟩, rfl, ⟨?_, ?_⟩, ?_⟩
    · intro g hg
      simp only
      rw [hpt1 g]
      exact hfix g hg
    · intro g hg
      simp only
      rw [hpt1 g]
      exact hcust g hg
    · simpa using htot1
  | false =>
    rw [if_neg (by simp)]
    have hfix1 : ∀ g ∈ fixedNamesSL, groupHasSL (dictGet sg1 g) = true := by
      intro g hg
      rw [hpt1 g]
      exact hfix g hg
    have hcust1 : ∀ g ∈ st.customs, groupHasSL (dictGet sg1 g) = true := by
      intro g hg
      rw [hpt1 g]
      exact hcust g hg
    have htot1f : totalRegistry sg1 = totalRegistry st.registry := by
      simpa using htot1
    by_cases hemp : c.sorted_pictograms.isEmpty = true
    · rw [if_pos hemp]
      obtain ⟨sg2, p2, hca, hpt2, htot2, hkeys2⟩ :=
        condAppend_ok sg1 "none" (stateKeyOf c.state_room_temp) c
          (hfix1 _ (by decide)) hs
      rw [hca, except_bind_ok]
      dsimp only
      cases p2 with
      | true =>
        rw [if_pos rfl]
        refine ⟨⟨sg2, st.counter, st.customs⟩, rfl, ⟨?_, ?_⟩, ?_⟩
        · intro g hg
          simp only
          rw [hpt2 g]
          exact hfix1 g hg
        · intro g hg
          simp only
          rw [hpt2 g]
          exact hcust1 g hg
        · simp only
          simp only [Bool.toNat_true] at htot2
          omega
      | false =>
        rw [if_neg (by simp)]
        have hfix2 : ∀ g ∈ fixedNamesSL, groupHasSL (dictGet sg2 g) = true := by
          intro g hg
          rw [hpt2 g]
          exact hfix1 g hg
        have hcust2 : ∀ g ∈ st.customs, groupHasSL (dictGet sg2 g) = true := by
          intro g hg
          rw [hpt2 g]
          exact hcust1 g hg
        obtain ⟨st2, hco, hG2, htotc⟩ :=
          createOverflow_good sg2 st.counter st.customs c hfix2 hcust2 hs
        refine ⟨st2, hco, hG2, ?_⟩
        simp only [Bool.toNat_false] at htot2
        omega
    · rw [if_neg hemp]
      obtain ⟨sg2, p2, htc, hpt2, htot2, hkeys2⟩ :=
        tryCustoms_ok sg1 st.customs (stateKeyOf c.state_room_temp) c
          hcust1 hs
      rw [htc, except_bind_ok]
      dsimp only
      cases p2 with
      | true =>
        rw [if_pos rfl]
        refine ⟨⟨sg2, st.counter, st.customs⟩, rfl, ⟨?_, ?_⟩, ?_⟩
        · intro g hg
          simp only
          rw [hpt2 g]
          exact hfix1 g hg
        · intro g hg
          simp only
          rw [hpt2 g]
          exact hcust1 g hg
        · simp only
          simp only [Bool.toNat_true] at htot2
          omega
      | false =>
        rw [if_neg (by simp)]
        have hfix2 : ∀ g ∈ fixedNamesSL, groupHasSL (dictGet sg2 g) = true := by
          intro g hg
          rw [hpt2 g]
          exact hfix1 g hg
        have hcust2 : ∀ g ∈ st.customs, groupHasSL (dictGet sg2 g) = true := by
          intro g hg
          rw [hpt2 g]
          exact hcust1 g hg
        obtain ⟨st2, hco, hG2, htotc⟩ :=
          createOverflow_good sg2 st.counter st.customs c hfix2 hcust2 hs
        refine ⟨st2, hco, hG2, ?_⟩
        simp only [Bool.toNat_false] at htot2
        omega

theorem sortLoop_ok : ∀ (l : List Compound) (st : SortState),
    GoodState st → (∀ c ∈ l, goodCompound c) →
    ∃ st2, sortLoop st l = .ok st2 ∧ GoodState st2 ∧
      totalRegistry st2.registry = totalRegistry st.registry + l.length := by
  intro l
  induction l with
  | nil => exact fun st hG _ => ⟨st, rfl, hG, by simp⟩
  | cons c rest ih =>
    intro st hG hall
    obtain ⟨st1, hstep, hG1, htot1⟩ := sortStep_ok st c hG (hall c (by simp))
    obtain ⟨st2, hloop, hG2, htot2⟩ :=
      ih st1 hG1 (fun c2 hc2 => hall c2 (by simp [hc2]))
    refine ⟨st2, ?_, hG2, by simp only [List.length_cons]; omega⟩
    simp only [sortLoop, hstep, except_bind_ok]
    exact hloop

theorem goodInit : GoodState ⟨initialize_storage_groups, 1,
    (registryKeys initialize_storage_groups).filter
      fun k => strStartsWith k "custom_storage_"⟩ := by
  constructor
  · intro g hg
    fin_cases hg <;> decide
  · intro g hg
    have : ((registryKeys initialize_storage_groups).filter
        fun k => strStartsWith k "custom_storage_") = [] := by decide
    rw [this] at hg
    simp at hg

/-- Claim C1 as amended: for every non-empty input list of compound records
whose state keys are `solid` or `liquid` and whose dominant pictogram is not
`Compressed Gas`, `chemsort_multiple_order_3` on a freshly initialised
registry succeeds and the total number of compounds across all buckets
afterwards equals the input count — no compound is dropped and none is
duplicated. (The unamended claim fails: the counterexample's gas-state
record with no pictograms raises a `KeyError` at the `none` group's missing
`gas` bucket, so nothing is placed. The restriction to solid/liquid states
is sufficient, not necessary — some gas-state records are placed, e.g. via
the `compressed_gas` group's `gas` key or a fresh overflow group.) -/
theorem chemsort_total_placement (l : List Compound) (hne : l ≠ [])
    (h : ∀ c ∈ l, goodCompound c) :
    ∃ sg2, chemsort_multiple_order_3 l initialize_storage_groups = .ok sg2 ∧
      totalRegistry sg2 = l.length := by
  have hperm := List.perm_insertionSort
    (fun a b => compound_priority a ≤ compound_priority b) l
  obtain ⟨st2, hloop, _, htot⟩ := sortLoop_ok
    (l.insertionSort fun a b => compound_priority a ≤ compound_priority b)
    ⟨initialize_storage_groups, 1,
      (registryKeys initialize_storage_groups).filter
        fun k => strStartsWith k "custom_storage_"⟩
    goodInit
    (fun c hc => h c (hperm.mem_iff.mp hc))
  refine ⟨st2.registry, ?_, ?_⟩
  · simp only [chemsort_multiple_order_3, hloop, except_bind_ok]
    rfl
  · rw [htot, hperm.length_eq]
    show totalRegistry initialize_storage_groups + l.length = l.length
    rw [show totalRegistry initialize_storage_groups = 0 from by decide]
    omega

/-- Witness for `chemsort_total_placement`: a concrete two-compound run
places both compounds. -/
theorem chemsort_total_placement_witness :
    ∃ sg2, chemsort_multiple_order_3
        [⟨"methanol", ["Flammable"], [], "neutral", "liquid"⟩,
         ⟨"sucrose", [], [], "neutral", "solid"⟩]
        initialize_storage_groups = .ok sg2 ∧
      totalRegistry sg2 = 2 := by
  have h := chemsort_total_placement
    [⟨"methanol", ["Flammable"], [], "neutral", "liquid"⟩,
     ⟨"sucrose", [], [], "neutral", "solid"⟩]
    (by decide)
    (by
      intro c hc
      simp only [List.mem_cons, List.not_mem_nil, or_false] at hc
      rcases hc with hc | hc <;> rw [hc] <;>
        exact ⟨by decide, by decide⟩)
  exact h

/-- Claim C2 as amended: the engine never raises a fatal error for a
well-formed compound record whose state key is `solid` or `liquid` and whose
dominant pictogram is not `Compressed Gas`: every routing, compatibility
lookup and bucket append succeeds, the worst case being placement in a fresh
overflow group. (The unamended claim fails: the counterexample's liquid
record with dominant pictogram `Compressed Gas`, not named `nitric acid`,
is appended to the gas-only `compressed_gas` group at its own state key
`liquid`, which is missing, raising a `KeyError`. The restriction is
sufficient, not necessary — e.g. a gas-state `Compressed Gas` record, or a
`Compressed Gas` dominant named `nitric acid`, succeeds.) -/
theorem chemsort_no_fatal_error (l : List Compound)
    (h : ∀ c ∈ l, goodCompound c) :
    ∃ sg2, chemsort_multiple_order_3 l initialize_storage_groups
      = .ok sg2 := by
  have hperm := List.perm_insertionSort
    (fun a b => compound_priority a ≤ compound_priority b) l
  obtain ⟨st2, hloop, _, _⟩ := sortLoop_ok
    (l.insertionSort fun a b => compound_priority a ≤ compound_priority b)
    ⟨initialize_storage_groups, 1,
      (registryKeys initialize_storage_groups).filter
        fun k => strStartsWith k "custom_storage_"⟩
    goodInit
    (fun c hc => h c (hperm.mem_iff.mp hc))
  refine ⟨st2.registry, ?_⟩
  simp only [chemsort_multiple_order_3, hloop, except_bind_ok]
  rfl

/-- Witness for `chemsort_no_fatal_error`: a concrete run on a compound that
can only land in an overflow group still succeeds. -/
theorem chemsort_no_fatal_error_witness :
    ∃ sg2, chemsort_multiple_order_3
        [⟨"peroxide", ["Oxidizer", "Corrosive"], [], "acid", "liquid"⟩]
        initialize_storage_groups = .ok sg2 := by
  exact chemsort_no_fatal_error
    [⟨"peroxide", ["Oxidizer", "Corrosive"], [], "acid", "liquid"⟩]
    (by
      intro c hc
      simp only [List.mem_cons, List.not_mem_nil, or_false] at hc
      rw [hc]
      exact ⟨by decide, by decide⟩)

/-! ### Overflow naming (C7) -/

/-- Claim C7: whenever the sorter creates an overflow group, its name is
`custom_storage_<N>` where `N` is the smallest positive integer whose name is
not already a group name in the registry — so repeated creations yield
increasing, gap-filling suffixes and never reuse an existing name; the new
group is created with all three state keys empty and the triggering compound
is appended to its state-key bucket unconditionally. The hypotheses are the
loop invariants of `chemsort_multiple_order_3`: the counter is positive and
every smaller counter value already names a group. -/
theorem overflow_naming (sg : Registry) (counter : Nat)
    (customs : List String) (skey : String) (c : Compound)
    (hs : skey = "liquid" ∨ skey = "solid" ∨ skey = "gas")
    (hc1 : 1 ≤ counter)
    (hinv : ∀ k, 1 ≤ k → k < counter → customName k ∈ registryKeys sg) :
    ∃ st2, createOverflow sg counter customs skey c = .ok st2 ∧
      1 ≤ st2.counter ∧
      customName st2.counter ∉ registryKeys sg ∧
      (∀ m, 1 ≤ m → customName m ∉ registryKeys sg → st2.counter ≤ m) ∧
      st2.customs = customs ++ [customName st2.counter] ∧
      (∀ k2, k2 = "liquid" ∨ k2 = "solid" ∨ k2 = "gas" →
        dictGet2 st2.registry (customName st2.counter) k2 =
          some (if k2 == skey then [c] else [])) := by
  set n := findFree (registryKeys sg) counter ((registryKeys sg).length + 1)
    with hn
  have hfresh : customName n ∉ registryKeys sg := by
    apply findFree_not_mem
    exact exists_free_in_window (registryKeys sg) counter
  have hge : counter ≤ n := findFree_ge (registryKeys sg) counter _
  have hmin : ∀ m, 1 ≤ m → customName m ∉ registryKeys sg → n ≤ m := by
    intro m hm1 hmfree
    by_contra hlt
    push_neg at hlt
    by_cases hmc : m < counter
    · exact hmfree (hinv m hm1 hmc)
    · exact hmfree (findFree_min (registryKeys sg) _ counter m
        (by omega) hlt)
  have hget1 : dictGet
      (dictSet sg (customName n) [("liquid", []), ("solid", []), ("gas", [])])
      (customName n) =
      some [("liquid", []), ("solid", []), ("gas", [])] := by
    rw [dictGet_dictSet]
    simp
  have hbk : dictGet ([("liquid", []), ("solid", []), ("gas", [])] :
      StorageGroup) skey = some [] := by
    rcases hs with h | h | h <;> rw [h] <;> rfl
  refine ⟨⟨dictSet
      (dictSet sg (customName n) [("liquid", []), ("solid", []), ("gas", [])])
      (customName n) (dictSet [("liquid", []), ("solid", []), ("gas", [])]
        skey ([] ++ [c])), n, customs ++ [customName n]⟩, ?_,
      le_trans hc1 hge, hfresh, hmin, rfl, ?_⟩
  · simp only [createOverflow, ← hn, registryAppend, hget1, hbk,
      except_bind_ok]
    rfl
  · intro k2 hk2
    simp only [dictGet2]
    rw [dictGet_dictSet]
    rw [if_pos (by simp : (customName n == customName n) = true)]
    show dictGet (dictSet [("liquid", []), ("solid", []), ("gas", [])]
      skey ([] ++ [c])) k2 = some (if k2 == skey then [c] else [])
    rw [dictGet_dictSet]
    by_cases hksk : (k2 == skey) = true
    · rw [if_pos hksk, if_pos hksk]
      simp
    · rw [if_neg hksk, if_neg hksk]
      rcases hk2 with h | h | h <;> rw [h] <;> rfl

/-- Witness for `overflow_naming`: creating the first overflow group in a
freshly initialised registry yields `custom_storage_1`. -/
theorem overflow_naming_witness :
    ∃ st2, createOverflow initialize_storage_groups 1 [] "solid"
        ⟨"x", ["Oxidizer", "Corrosive"], [], "neutral", "solid"⟩ = .ok st2 ∧
      1 ≤ st2.counter ∧
      customName st2.counter ∉ registryKeys initialize_storage_groups ∧
      (∀ m, 1 ≤ m →
        customName m ∉ registryKeys initialize_storage_groups →
        st2.counter ≤ m) ∧
      st2.customs = [] ++ [customName st2.counter] ∧
      (∀ k2, k2 = "liquid" ∨ k2 = "solid" ∨ k2 = "gas" →
        dictGet2 st2.registry (customName st2.counter) k2 =
          some (if k2 == "solid" then
            [⟨"x", ["Oxidizer", "Corrosive"], [], "neutral", "solid"⟩]
          else [])) :=
  overflow_naming initialize_storage_groups 1 [] "solid"
    ⟨"x", ["Oxidizer", "Corrosive"], [], "neutral", "solid"⟩
    (by decide) (by decide) (fun k h1 h2 => by omega)

/-! ### Oxidizer first placement (C8) -/

/-- Claim C8 as amended: a compound whose dominant (first) pictogram is
`Oxidizer`, that is not named `nitric acid`, whose pictogram list contains
neither `Flammable` nor `Corrosive` (rule 5 of the compatibility check
rejects those from the `oxidizer` group even when no occupant is present),
and whose state key is `solid` or `liquid`, is placed into the `oxidizer`
group's bucket for its state key on first placement into a freshly
initialised registry. -/
theorem oxidizer_first_placement (c : Compound) (rest : List String)
    (hp : c.sorted_pictograms = "Oxidizer" :: rest)
    (hname : ¬strLower c.name = "nitric acid")
    (hnf : c.sorted_pictograms.contains "Flammable" = false)
    (hnc : c.sorted_pictograms.contains "Corrosive" = false)
    (hs : stateKeyOf c.state_room_temp = "solid" ∨
      stateKeyOf c.state_room_temp = "liquid") :
    ∃ sg2, chemsort_multiple_order_3 [c] initialize_storage_groups
        = .ok sg2 ∧
      dictGet2 sg2 "oxidizer" (stateKeyOf c.state_room_temp) = some [c] := by
  have hb1 : ¬(strLower c.name == "nitric acid") = true := by
    simpa using hname
  have hox : dictGet initialize_storage_groups "oxidizer" =
      some default_group := by decide
  have hbucket : dictGet default_group (stateKeyOf c.state_room_temp) =
      some [] := by
    rcases hs with h | h <;> rw [h] <;> decide
  have hcompat : is_chemically_compatible [] c.sorted_pictograms ""
      c.acid_base_class "" c.state_room_temp "oxidizer" = true := by
    rw [compat_eq_not_or]
    have e1 : strContains "" "acid" = false := by decide
    have e2 : strContains "" "base" = false := by decide
    have e3 : ("" == "solid") = false := by decide
    have e4 : ("" == "liquid") = false := by decide
    have e5 : strLower "oxidizer" = "oxidizer" := by decide
    have e6 : groupRuleRejects "oxidizer" c.sorted_pictograms
        c.acid_base_class = false := by
      unfold groupRuleRejects
      have f1 : ("oxidizer" == "oxidizer") = true := by decide
      have f2 : ("oxidizer" == "flammable") = false := by decide
      have f3 : ("oxidizer" == "pyrophoric") = false := by decide
      have f4 : strContains "oxidizer" "corrosive" = false := by decide
      have f5 : strContains "oxidizer" "irritant" = false := by decide
      have f6 : strContains "oxidizer" "toxicity" = false := by decide
      have f7 : ("oxidizer" == "cmr_stot") = false := by decide
      have f8 : strContains "oxidizer" "acid" = false := by decide
      rw [f1, f2, f3, f4, f5, f6, f7, f8, hnf, hnc]
      simp
    rw [e1, e2, e3, e4, e5, e6]
    simp [hnc]
  have hicg : isCompatibleWithGroup initialize_storage_groups "oxidizer"
      (stateKeyOf c.state_room_temp) c = .ok true := by
    simp only [isCompatibleWithGroup, hox, hbucket, List.isEmpty_nil,
      if_pos, hcompat]
  have happ : registryAppend initialize_storage_groups "oxidizer"
      (stateKeyOf c.state_room_temp) c =
      .ok (dictSet initialize_storage_groups "oxidizer"
        (dictSet default_group (stateKeyOf c.state_room_temp) ([] ++ [c])))
      := by
    simp only [registryAppend, hox, hbucket]
  have hca : condAppend initialize_storage_groups "oxidizer"
      (stateKeyOf c.state_room_temp) c =
      .ok (dictSet initialize_storage_groups "oxidizer"
        (dictSet default_group (stateKeyOf c.state_room_temp) ([] ++ [c])),
        true) := by
    simp only [condAppend, hicg, except_bind_ok, if_pos, happ]
    rfl
  have hroute : routeFixed initialize_storage_groups c
      (stateKeyOf c.state_room_temp)
      (strLower (String.intercalate " " c.hazard_statements))
      (strLower c.acid_base_class) =
      .ok (dictSet initialize_storage_groups "oxidizer"
        (dictSet default_group (stateKeyOf c.state_room_temp) ([] ++ [c])),
        true) := by
    unfold routeFixed
    rw [hp]
    dsimp only
    rw [if_neg hb1]
    rw [if_neg (by decide : ¬(("Oxidizer" : String) == "Compressed Gas")
      = true)]
    rw [if_neg (by decide : ¬(("Oxidizer" : String) == "Explosive") = true)]
    rw [if_pos (by decide : (("Oxidizer" : String) == "Oxidizer") = true)]
    exact hca
  have hstep : sortStep ⟨initialize_storage_groups, 1, []⟩ c =
      .ok ⟨dictSet initialize_storage_groups "oxidizer"
        (dictSet default_group (stateKeyOf c.state_room_temp) ([] ++ [c])),
        1, []⟩ := by
    simp only [sortStep, hroute, except_bind_ok]
    rfl
  have hcust : (registryKeys initialize_storage_groups).filter
      (fun k => strStartsWith k "custom_storage_") = [] := by decide
  have hsort : [c].insertionSort
      (fun a b => compound_priority a ≤ compound_priority b) = [c] := by
    simp [List.insertionSort]
  refine ⟨dictSet initialize_storage_groups "oxidizer"
      (dictSet default_group (stateKeyOf c.state_room_temp) ([] ++ [c])),
      ?_, ?_⟩
  · simp only [chemsort_multiple_order_3, hsort, hcust, sortLoop, hstep,
      except_bind_ok]
    rfl
  · have h1 : dictGet (dictSet initialize_storage_groups "oxidizer"
        (dictSet default_group (stateKeyOf c.state_room_temp) ([] ++ [c])))
        "oxidizer" = some (dictSet default_group
          (stateKeyOf c.state_room_temp) ([] ++ [c])) := by
      rw [dictGet_dictSet]
      simp
    simp only [dictGet2, h1]
    rw [dictGet_dictSet]
    rw [if_pos (by simp : ((stateKeyOf c.state_room_temp) ==
      (stateKeyOf c.state_room_temp)) = true)]
    rfl

/-- Witness for `oxidizer_first_placement` at a concrete oxidizer. -/
theorem oxidizer_first_placement_witness :
    ∃ sg2, chemsort_multiple_order_3
        [⟨"kmno4", ["Oxidizer", "Health Hazard"], [], "neutral", "solid"⟩]
        initialize_storage_groups = .ok sg2 ∧
      dictGet2 sg2 "oxidizer" (stateKeyOf "solid") =
        some [⟨"kmno4", ["Oxidizer", "Health Hazard"], [], "neutral",
          "solid"⟩] :=
  oxidizer_first_placement
    ⟨"kmno4", ["Oxidizer", "Health Hazard"], [], "neutral", "solid"⟩
    ["Health Hazard"] rfl (by decide) (by decide) (by decide) (by decide)

/-- Witness for `initialize_storage_groups_shape`: the `none` group has
exactly the solid/liquid schema. -/
theorem initialize_storage_groups_shape_witness :
    dictGet initialize_storage_groups "none" =
      some [("solid", []), ("liquid", [])] :=
  initialize_storage_groups_shape.2.1 "none" (by decide)

/-! ### Inversion lemmas: what a successful step did to the registry -/

/-- The twelve group names the router targets through the compatibility
check (every routed group except the three bypass targets). -/
def checkedFixedNames : List String :=
  ["oxidizer", "pyrophoric", "flammable", "base_corrosive_1",
   "base_irritant", "acid_corrosive_1", "acid_irritant", "acute_toxicity",
   "cmr_stot", "toxicity_2_3", "hazardous_environment", "none"]

/-- The all-empty three-key group created for overflow. -/
def grpAll3 : StorageGroup := [("liquid", []), ("solid", []), ("gas", [])]

theorem registryAppend_inv (sg : Registry) (g k : String) (c : Compound)
    (sg2 : Registry) (h : registryAppend sg g k c = .ok sg2) :
    ∃ grp b, dictGet sg g = some grp ∧ dictGet grp k = some b ∧
      sg2 = dictSet sg g (dictSet grp k (b ++ [c])) := by
  unfold registryAppend at h
  cases hget : dictGet sg g with
  | none => rw [hget] at h; exact absurd h (by simp)
  | some grp =>
    simp only [hget] at h
    cases hbk : dictGet grp k with
    | none => simp only [hbk] at h; exact absurd h (by simp)
    | some b =>
      simp only [hbk, Except.ok.injEq] at h
      exact ⟨grp, b, rfl, hbk, h.symm⟩

theorem isCompatibleWithGroup_inv (sg : Registry) (g k : String)
    (c : Compound) (bv : Bool)
    (h : isCompatibleWithGroup sg g k c = .ok bv) :
    ∃ grp b, dictGet sg g = some grp ∧ dictGet grp k = some b ∧
      ((b = [] ∧ bv = is_chemically_compatible [] c.sorted_pictograms ""
          c.acid_base_class "" c.state_room_temp g) ∨
       (b ≠ [] ∧ bv = b.all fun e =>
          is_chemically_compatible e.sorted_pictograms c.sorted_pictograms
            e.acid_base_class c.acid_base_class e.state_room_temp
            c.state_room_temp g)) := by
  unfold isCompatibleWithGroup at h
  cases hget : dictGet sg g with
  | none => rw [hget] at h; exact absurd h (by simp)
  | some grp =>
    simp only [hget] at h
    cases hbk : dictGet grp k with
    | none => simp only [hbk] at h; exact absurd h (by simp)
    | some b =>
      simp only [hbk] at h
      refine ⟨grp, b, rfl, hbk, ?_⟩
      by_cases he : b.isEmpty = true
      · rw [if_pos he] at h
        simp only [Except.ok.injEq] at h
        exact Or.inl ⟨List.isEmpty_iff.mp he, h.symm⟩
      · rw [if_neg he] at h
        simp only [Except.ok.injEq] at h
        refine Or.inr ⟨?_, h.symm⟩
        intro hb
        rw [hb] at he
        exact he rfl

theorem condAppend_inv (sg : Registry) (g skey : String) (c : Compound)
    (sg2 : Registry) (p : Bool)
    (h : condAppend sg g skey c = .ok (sg2, p)) :
    (p = false ∧ sg2 = sg) ∨
    (p = true ∧ ∃ grp b, dictGet sg g = some grp ∧
      dictGet grp skey = some b ∧
      sg2 = dictSet sg g (dictSet grp skey (b ++ [c])) ∧
      (b = [] ∨ b.all (fun e =>
        is_chemically_compatible e.sorted_pictograms c.sorted_pictograms
          e.acid_base_class c.acid_base_class e.state_room_temp
          c.state_room_temp g) = true)) := by
  cases hic : isCompatibleWithGroup sg g skey c with
  | error e =>
    rw [show condAppend sg g skey c =
      ((isCompatibleWithGroup sg g skey c) >>= fun ok =>
        if ok then (registryAppend sg g skey c) >>= fun sg1 =>
          pure (sg1, true)
        else pure (sg, false)) from rfl, hic] at h
    exact absurd h (by simp [Bind.bind, Except.bind])
  | ok bv =>
    rw [show condAppend sg g skey c =
      ((isCompatibleWithGroup sg g skey c) >>= fun ok =>
        if ok then (registryAppend sg g skey c) >>= fun sg1 =>
          pure (sg1, true)
        else pure (sg, false)) from rfl, hic, except_bind_ok] at h
    cases bv with
    | false =>
      rw [if_neg (by simp)] at h
      simp only [pure, Except.pure, Except.ok.injEq, Prod.mk.injEq] at h
      exact Or.inl ⟨h.2.symm, h.1.symm⟩
    | true =>
      rw [if_pos rfl] at h
      cases happ : registryAppend sg g skey c with
      | error e =>
        rw [happ] at h
        exact absurd h (by simp [Bind.bind, Except.bind])
      | ok sg1 =>
        rw [happ, except_bind_ok] at h
        simp only [pure, Except.pure, Except.ok.injEq, Prod.mk.injEq] at h
        obtain ⟨grp, b, hget, hbk, hset⟩ :=
          registryAppend_inv sg g skey c sg1 happ
        obtain ⟨grp2, b2, hget2, hbk2, hcase⟩ :=
          isCompatibleWithGroup_inv sg g skey c true hic
        have hgrp : grp2 = grp := by
          rw [hget] at hget2
          exact (by simpa using hget2 : grp = grp2).symm
        have hb2 : b2 = b := by
          rw [hgrp, hbk] at hbk2
          exact (by simpa using hbk2 : b = b2).symm
        refine Or.inr ⟨h.2.symm, grp, b, hget, hbk, by rw [← h.1, hset], ?_⟩
        rcases hcase with ⟨hbe, _⟩ | ⟨_, hall⟩
        · exact Or.inl (by rw [← hb2, hbe])
        · exact Or.inr (by rw [← hb2]; exact hall.symm)

theorem tryCustoms_inv (sg : Registry) : ∀ (customs : List String)
    (skey : String) (c : Compound) (sg2 : Registry) (p : Bool),
    tryCustoms sg customs skey c = .ok (sg2, p) →
    (p = false ∧ sg2 = sg) ∨
    (p = true ∧ ∃ g ∈ customs, ∃ grp b, dictGet sg g = some grp ∧
      dictGet grp skey = some b ∧
      sg2 = dictSet sg g (dictSet grp skey (b ++ [c])) ∧
      (b = [] ∨ b.all (fun e =>
        is_chemically_compatible e.sorted_pictograms c.sorted_pictograms
          e.acid_base_class c.acid_base_class e.state_room_temp
          c.state_room_temp g) = true)) := by
  intro customs
  induction customs with
  | nil =>
    intro skey c sg2 p h
    simp only [tryCustoms, Except.ok.injEq, Prod.mk.injEq] at h
    exact Or.inl ⟨h.2.symm, h.1.symm⟩
  | cons g rest ih =>
    intro skey c sg2 p h
    cases hic : isCompatibleWithGroup sg g skey c with
    | error e =>
      rw [show tryCustoms sg (g :: rest) skey c =
        ((isCompatibleWithGroup sg g skey c) >>= fun ok =>
          if ok then (registryAppend sg g skey c) >>= fun sg1 =>
            pure (sg1, true)
          else tryCustoms sg rest skey c) from rfl, hic] at h
      exact absurd h (by simp [Bind.bind, Except.bind])
    | ok bv =>
      rw [show tryCustoms sg (g :: rest) skey c =
        ((isCompatibleWithGroup sg g skey c) >>= fun ok =>
          if ok then (registryAppend sg g skey c) >>= fun sg1 =>
            pure (sg1, true)
          else tryCustoms sg rest skey c) from rfl, hic,
        except_bind_ok] at h
      cases bv with
      | false =>
        rw [if_neg (by simp)] at h
        rcases ih skey c sg2 p h with hl | ⟨hp, g2, hg2, rest2⟩
        · exact Or.inl hl
        · exact Or.inr ⟨hp, g2, by simp [hg2], rest2⟩
      | true =>
        rw [if_pos rfl] at h
        cases happ : registryAppend sg g skey c with
        | error e =>
          rw [happ] at h
          exact absurd h (by simp [Bind.bind, Except.bind])
        | ok sg1 =>
          rw [happ, except_bind_ok] at h
          simp only [pure, Except.pure, Except.ok.injEq, Prod.mk.injEq] at h
          obtain ⟨grp, b, hget, hbk, hset⟩ :=
            registryAppend_inv sg g skey c sg1 happ
          obtain ⟨grp2, b2, hget2, hbk2, hcase⟩ :=
            isCompatibleWithGroup_inv sg g skey c true hic
          have hgrp : grp2 = grp := by
            rw [hget] at hget2
            exact (by simpa using hget2 : grp = grp2).symm
          have hb2 : b2 = b := by
            rw [hgrp, hbk] at hbk2
            exact (by simpa using hbk2 : b = b2).symm
          refine Or.inr ⟨h.2.symm, g, by simp, grp, b, hget, hbk,
            by rw [← h.1, hset], ?_⟩
          rcases hcase with ⟨hbe, _⟩ | ⟨_, hall⟩
          · exact Or.inl (by rw [← hb2, hbe])
          · exact Or.inr (by rw [← hb2]; exact hall.symm)

theorem routeFixed_inv (sg : Registry) (c : Compound)
    (skey stmts clsLower : String) (sg1 : Registry) (p : Bool)
    (h : routeFixed sg c skey stmts clsLower = .ok (sg1, p)) :
    (p = false ∧ sg1 = sg) ∨
    (p = true ∧ ∃ g grp b, dictGet sg g = some grp ∧
      dictGet grp skey = some b ∧
      sg1 = dictSet sg g (dictSet grp skey (b ++ [c])) ∧
      ((g = "nitric_acid" ∧ strLower c.name = "nitric acid") ∨
       (g = "compressed_gas" ∧
         c.sorted_pictograms.head? = some "Compressed Gas") ∨
       (g = "explosive" ∧ c.sorted_pictograms.head? = some "Explosive" ∧
         ¬strLower c.name = "nitric acid") ∨
       (g ∈ checkedFixedNames ∧ (b = [] ∨ b.all (fun e =>
         is_chemically_compatible e.sorted_pictograms c.sorted_pictograms
           e.acid_base_class c.acid_base_class e.state_room_temp
           c.state_room_temp g) = true)))) := by
  unfold routeFixed at h
  cases hp : c.sorted_pictograms with
  | nil =>
    rw [hp] at h
    simp only [Except.ok.injEq, Prod.mk.injEq] at h
    exact Or.inl ⟨h.2.symm, h.1.symm⟩
  | cons first rest =>
    rw [hp] at h
    dsimp only at h
    rw [← hp]
    by_cases hb1 : (strLower c.name == "nitric acid") = true
    · rw [if_pos hb1] at h
      cases happ : registryAppend sg "nitric_acid" skey c with
      | error e =>
        rw [happ] at h
        exact absurd h (by simp [Bind.bind, Except.bind])
      | ok sgv =>
        rw [happ, except_bind_ok] at h
        simp only [pure, Except.pure, Except.ok.injEq, Prod.mk.injEq] at h
        obtain ⟨grp, b, hget, hbk, hset⟩ :=
          registryAppend_inv sg "nitric_acid" skey c sgv happ
        exact Or.inr ⟨h.2.symm, "nitric_acid", grp, b, hget, hbk,
          by rw [← h.1, hset], Or.inl ⟨rfl, by simpa using hb1⟩⟩
    rw [if_neg hb1] at h
    have hb1n : ¬strLower c.name = "nitric acid" := by simpa using hb1
    by_cases hb2 : (first == "Compressed Gas") = true
    · rw [if_pos hb2] at h
      cases happ : registryAppend sg "compressed_gas" skey c with
      | error e =>
        rw [happ] at h
        exact absurd h (by simp [Bind.bind, Except.bind])
      | ok sgv =>
        rw [happ, except_bind_ok] at h
        simp only [pure, Except.pure, Except.ok.injEq, Prod.mk.injEq] at h
        obtain ⟨grp, b, hget, hbk, hset⟩ :=
          registryAppend_inv sg "compressed_gas" skey c sgv happ
        refine Or.inr ⟨h.2.symm, "compressed_gas", grp, b, hget, hbk,
          by rw [← h.1, hset], Or.inr (Or.inl ⟨rfl, ?_⟩)⟩
        rw [hp]
        simp only [List.head?_cons, Option.some.injEq]
        simpa using hb2
    rw [if_neg hb2] at h
    by_cases hb3 : (first == "Explosive") = true
    · rw [if_pos hb3] at h
      cases happ : registryAppend sg "explosive" skey c with
      | error e =>
        rw [happ] at h
        exact absurd h (by simp [Bind.bind, Except.bind])
      | ok sgv =>
        rw [happ, except_bind_ok] at h
        simp only [pure, Except.pure, Except.ok.injEq, Prod.mk.injEq] at h
        obtain ⟨grp, b, hget, hbk, hset⟩ :=
          registryAppend_inv sg "explosive" skey c sgv happ
        refine Or.inr ⟨h.2.symm, "explosive", grp, b, hget, hbk,
          by rw [← h.1, hset], Or.inr (Or.inr (Or.inl ⟨rfl, ?_, hb1n⟩))⟩
        rw [hp]
        simp only [List.head?_cons, Option.some.injEq]
        simpa using hb3
    rw [if_neg hb3] at h
    have hcond : ∀ g2 : String, g2 ∈ checkedFixedNames →
        condAppend sg g2 skey c = .ok (sg1, p) →
        (p = false ∧ sg1 = sg) ∨
        (p = true ∧ ∃ g grp b, dictGet sg g = some grp ∧
          dictGet grp skey = some b ∧
          sg1 = dictSet sg g (dictSet grp skey (b ++ [c])) ∧
          ((g = "nitric_acid" ∧ strLower c.name = "nitric acid") ∨
           (g = "compressed_gas" ∧
             c.sorted_pictograms.head? = some "Compressed Gas") ∨
           (g = "explosive" ∧ c.sorted_pictograms.head? = some "Explosive" ∧
             ¬strLower c.name = "nitric acid") ∨
           (g ∈ checkedFixedNames ∧ (b = [] ∨ b.all (fun e =>
             is_chemically_compatible e.sorted_pictograms
               c.sorted_pictograms e.acid_base_class c.acid_base_class
               e.state_room_temp c.state_room_temp g) = true)))) := by
      intro g2 hg2 hca
      rcases condAppend_inv sg g2 skey c sg1 p hca with hl | ⟨hp2, grp, b,
        hget, hbk, hset, hcomp⟩
      · exact Or.inl hl
      · exact Or.inr ⟨hp2, g2, grp, b, hget, hbk, hset,
          Or.inr (Or.inr (Or.inr ⟨hg2, hcomp⟩))⟩
    by_cases hb4 : (first == "Oxidizer") = true
    · rw [if_pos hb4] at h
      exact hcond "oxidizer" (by decide) h
    rw [if_neg hb4] at h
    by_cases hb5 : (first == "Flammable") = true
    · rw [if_pos hb5] at h
      by_cases hf : (phrases_flam.any fun phr => strContains stmts phr)
          = true
      · rw [if_pos hf] at h
        exact hcond "pyrophoric" (by decide) h
      · rw [if_neg hf] at h
        exact hcond "flammable" (by decide) h
    rw [if_neg hb5] at h
    by_cases hb6 : (first == "Corrosive") = true
    · rw [if_pos hb6] at h
      by_cases hbase : (strContains clsLower "base") = true
      · rw [if_pos hbase] at h
        by_cases hsev :
            (strContains stmts "causes severe skin burns and eye damage")
              = true
        · rw [if_pos hsev] at h
          exact hcond "base_corrosive_1" (by decide) h
        · rw [if_neg hsev] at h
          exact hcond "base_irritant" (by decide) h
      rw [if_neg hbase] at h
      by_cases hacid : (strContains clsLower "acid") = true
      · rw [if_pos hacid] at h
        by_cases hsev :
            (strContains stmts "causes severe skin burns and eye damage")
              = true
        · rw [if_pos hsev] at h
          exact hcond "acid_corrosive_1" (by decide) h
        · rw [if_neg hsev] at h
          exact hcond "acid_irritant" (by decide) h
      · rw [if_neg hacid] at h
        simp only [Except.ok.injEq, Prod.mk.injEq] at h
        exact Or.inl ⟨h.2.symm, h.1.symm⟩
    rw [if_neg hb6] at h
    by_cases hb7 : (first == "Acute Toxic" || first == "Health Hazard")
        = true
    · rw [if_pos hb7] at h
      by_cases hft : (strContains stmts "fatal" || strContains stmts "toxic")
          = true
      · rw [if_pos hft] at h
        exact hcond "acute_toxicity" (by decide) h
      rw [if_neg hft] at h
      by_cases hph : (phrases_hazard.any fun phr => strContains stmts phr)
          = true
      · rw [if_pos hph] at h
        exact hcond "cmr_stot" (by decide) h
      · rw [if_neg hph] at h
        exact hcond "toxicity_2_3" (by decide) h
    rw [if_neg hb7] at h
    by_cases hb8 : (first == "Irritant" || first == "Environmental Hazard")
        = true
    · rw [if_pos hb8] at h
      by_cases haq : (strContains stmts "toxic to aquatic life") = true
      · rw [if_pos haq] at h
        exact hcond "hazardous_environment" (by decide) h
      · rw [if_neg haq] at h
        exact hcond "none" (by decide) h
    · rw [if_neg hb8] at h
      simp only [Except.ok.injEq, Prod.mk.injEq] at h
      exact Or.inl ⟨h.2.symm, h.1.symm⟩

theorem createOverflow_inv (sg : Registry) (counter : Nat)
    (customs : List String) (skey : String) (c : Compound) (st2 : SortState)
    (h : createOverflow sg counter customs skey c = .ok st2) :
    ∃ n, st2.registry = dictSet (dictSet sg (customName n) grpAll3)
      (customName n) (dictSet grpAll3 skey ([] ++ [c])) ∧
      st2.customs = customs ++ [customName n] := by
  simp only [createOverflow] at h
  set n := findFree (registryKeys sg) counter ((registryKeys sg).length + 1)
    with hn
  cases happ : registryAppend
      (dictSet sg (customName n) [("liquid", []), ("solid", []),
        ("gas", [])]) (customName n) skey c with
  | error e =>
    rw [happ] at h
    exact absurd h (by simp [Bind.bind, Except.bind])
  | ok sgv =>
    rw [happ, except_bind_ok] at h
    simp only [pure, Except.pure, Except.ok.injEq] at h
    obtain ⟨grp, b, hget, hbk, hset⟩ := registryAppend_inv _ _ _ _ _ happ
    have hgrp : grp = [("liquid", []), ("solid", []), ("gas", [])] := by
      rw [dictGet_dictSet] at hget
      rw [if_pos (by simp : (customName n == customName n) = true)] at hget
      simpa using hget.symm
    have hb0 : b = [] := by
      rw [hgrp] at hbk
      unfold dictGet at hbk
      by_cases h1 : ("liquid" == skey) = true
      · rw [if_pos h1] at hbk
        exact (Option.some.inj hbk).symm
      rw [if_neg h1] at hbk
      unfold dictGet at hbk
      by_cases h2 : ("solid" == skey) = true
      · rw [if_pos h2] at hbk
        exact (Option.some.inj hbk).symm
      rw [if_neg h2] at hbk
      unfold dictGet at hbk
      by_cases h3 : ("gas" == skey) = true
      · rw [if_pos h3] at hbk
        exact (Option.some.inj hbk).symm
      · rw [if_neg h3] at hbk
        unfold dictGet at hbk
        exact absurd hbk (by simp)
    refine ⟨n, ?_, ?_⟩
    · rw [← h]
      simp only
      rw [hset, hgrp, hb0]
      rfl
    · rw [← h]

theorem except_bind_pure {α β : Type} (a : α) (f : α → Except Unit β) :
    ((pure a : Except Unit α) >>= f) = f a := rfl

theorem sortStep_effect (st : SortState) (c : Compound) (st2 : SortState)
    (h : sortStep st c = .ok st2) :
    (∃ g grp b, dictGet st.registry g = some grp ∧
      dictGet grp (stateKeyOf c.state_room_temp) = some b ∧
      st2.registry = dictSet st.registry g
        (dictSet grp (stateKeyOf c.state_room_temp) (b ++ [c])) ∧
      st2.customs = st.customs ∧
      ((g = "nitric_acid" ∧ strLower c.name = "nitric acid") ∨
       (g = "compressed_gas" ∧
         c.sorted_pictograms.head? = some "Compressed Gas") ∨
       (g = "explosive" ∧ c.sorted_pictograms.head? = some "Explosive" ∧
         ¬strLower c.name = "nitric acid") ∨
       ((g ∈ checkedFixedNames ∨ g ∈ st.customs) ∧ (b = [] ∨
         b.all (fun e => is_chemically_compatible e.sorted_pictograms
           c.sorted_pictograms e.acid_base_class c.acid_base_class
           e.state_room_temp c.state_room_temp g) = true)))) ∨
    (∃ n, st2.registry = dictSet
      (dictSet st.registry (customName n) grpAll3) (customName n)
      (dictSet grpAll3 (stateKeyOf c.state_room_temp) ([] ++ [c])) ∧
      st2.customs = st.customs ++ [customName n]) := by
  simp only [sortStep] at h
  cases hroute : routeFixed st.registry c (stateKeyOf c.state_room_temp)
      (strLower (String.intercalate " " c.hazard_statements))
      (strLower c.acid_base_class) with
  | error e =>
    rw [hroute] at h
    exact absurd h (by simp [Bind.bind, Except.bind])
  | ok pr =>
    obtain ⟨sg1, p1⟩ := pr
    rw [hroute, except_bind_ok] at h
    dsimp only at h
    cases p1 with
    | true =>
      rw [except_bind_pure] at h
      dsimp only at h
      simp only [pure, Except.pure, eq_self_iff_true, if_true,
        Except.ok.injEq] at h
      rcases routeFixed_inv st.registry c (stateKeyOf c.state_room_temp)
          _ _ sg1 true hroute with ⟨hpf, _⟩ | ⟨_, g, grp, b, hget, hbk,
          hset, hkind⟩
      · exact absurd hpf (by simp)
      · refine Or.inl ⟨g, grp, b, hget, hbk, by rw [← h]; exact hset,
          by rw [← h], ?_⟩
        rcases hkind with hk | hk | hk | ⟨hk1, hk2⟩
        · exact Or.inl hk
        · exact Or.inr (Or.inl hk)
        · exact Or.inr (Or.inr (Or.inl hk))
        · exact Or.inr (Or.inr (Or.inr ⟨Or.inl hk1, hk2⟩))
    | false =>
      simp only [Bool.false_eq_true, if_false] at h
      rcases routeFixed_inv st.registry c (stateKeyOf c.state_room_temp)
          _ _ sg1 false hroute with ⟨_, hsg1⟩ | ⟨hpf, _⟩
      swap
      · exact absurd hpf (by simp)
      subst hsg1
      by_cases hemp : c.sorted_pictograms.isEmpty = true
      · rw [if_pos hemp] at h
        cases hca : condAppend st.registry "none"
            (stateKeyOf c.state_room_temp) c with
        | error e =>
          rw [hca] at h
          exact absurd h (by simp [Bind.bind, Except.bind])
        | ok pr2 =>
          obtain ⟨sg2, p2⟩ := pr2
          rw [hca, except_bind_ok] at h
          dsimp only at h
          cases p2 with
          | true =>
            simp only [pure, Except.pure, eq_self_iff_true, if_true,
              Except.ok.injEq] at h
            rcases condAppend_inv st.registry "none"
                (stateKeyOf c.state_room_temp) c sg2 true hca with
              ⟨hpf, _⟩ | ⟨_, grp, b, hget, hbk, hset, hcomp⟩
            · exact absurd hpf (by simp)
            · exact Or.inl ⟨"none", grp, b, hget, hbk,
                by rw [← h]; exact hset, by rw [← h],
                Or.inr (Or.inr (Or.inr ⟨Or.inl (by decide), hcomp⟩))⟩
          | false =>
            simp only [Bool.false_eq_true, if_false] at h
            rcases condAppend_inv st.registry "none"
                (stateKeyOf c.state_room_temp) c sg2 false hca with
              ⟨_, hsg2⟩ | ⟨hpf, _⟩
            swap
            · exact absurd hpf (by simp)
            subst hsg2
            obtain ⟨n, hreg, hcu⟩ := createOverflow_inv st.registry
              st.counter st.customs (stateKeyOf c.state_room_temp) c st2 h
            exact Or.inr ⟨n, hreg, hcu⟩
      · rw [if_neg hemp] at h
        cases htc : tryCustoms st.registry st.customs
            (stateKeyOf c.state_room_temp) c with
        | error e =>
          rw [htc] at h
          exact absurd h (by simp [Bind.bind, Except.bind])
        | ok pr2 =>
          obtain ⟨sg2, p2⟩ := pr2
          rw [htc, except_bind_ok] at h
          dsimp only at h
          cases p2 with
          | true =>
            simp only [pure, Except.pure, eq_self_iff_true, if_true,
              Except.ok.injEq] at h
            rcases tryCustoms_inv st.registry st.customs
                (stateKeyOf c.state_room_temp) c sg2 true htc with
              ⟨hpf, _⟩ | ⟨_, g, hg, grp, b, hget, hbk, hset, hcomp⟩
            · exact absurd hpf (by simp)
            · exact Or.inl ⟨g, grp, b, hget, hbk,
                by rw [← h]; exact hset, by rw [← h],
                Or.inr (Or.inr (Or.inr ⟨Or.inr hg, hcomp⟩))⟩
          | false =>
            simp only [Bool.false_eq_true, if_false] at h
            rcases tryCustoms_inv st.registry st.customs
                (stateKeyOf c.state_room_temp) c sg2 false htc with
              ⟨_, hsg2⟩ | ⟨hpf, _⟩
            swap
            · exact absurd hpf (by simp)
            subst hsg2
            obtain ⟨n, hreg, hcu⟩ := createOverflow_inv st.registry
              st.counter st.customs (stateKeyOf c.state_room_temp) c st2 h
            exact Or.inr ⟨n, hreg, hcu⟩

/-! ### Nitric-acid routing (C4) -/

/-- Membership of a compound in the bucket `registry[g][k]`. -/
def memBucket (sg : Registry) (g k : String) (x : Compound) : Prop :=
  ∃ b, dictGet2 sg g k = some b ∧ x ∈ b

theorem dictGet2_dictSet (sg : Registry) (g : String) (v : StorageGroup)
    (g0 k0 : String) :
    dictGet2 (dictSet sg g v) g0 k0 =
      if g0 == g then dictGet v k0 else dictGet2 sg g0 k0 := by
  unfold dictGet2
  rw [dictGet_dictSet]
  by_cases hg : (g0 == g) = true
  · rw [if_pos hg, if_pos hg]
  · rw [if_neg hg, if_neg hg]

theorem sortStep_mem_mono (st : SortState) (c : Compound) (st2 : SortState)
    (h : sortStep st c = .ok st2) (g0 : String)
    (hg0 : ∀ n, g0 ≠ customName n) (k0 : String) (x : Compound)
    (hm : memBucket st.registry g0 k0 x) : memBucket st2.registry g0 k0 x := by
  obtain ⟨bO, hbO, hxm⟩ := hm
  rcases sortStep_effect st c st2 h with
    ⟨g, grp, b, hget, hbk, hreg, _, _⟩ | ⟨n, hreg, _⟩
  · by_cases hgg : (g0 == g) = true
    · have hgeq : g0 = g := by simpa using hgg
      subst hgeq
      have hbO2 : dictGet grp k0 = some bO := by
        unfold dictGet2 at hbO
        rw [hget] at hbO
        exact hbO
      rw [hreg]
      by_cases hkk : (k0 == stateKeyOf c.state_room_temp) = true
      · have hkeq : k0 = stateKeyOf c.state_room_temp := by simpa using hkk
        subst hkeq
        have hbb : bO = b := by
          rw [hbk] at hbO2
          exact (by simpa using hbO2 : b = bO).symm
        refine ⟨b ++ [c], ?_, ?_⟩
        · rw [dictGet2_dictSet, if_pos (by simp), dictGet_dictSet,
            if_pos (by simp)]
        · subst hbb
          exact List.mem_append_left _ hxm
      · refine ⟨bO, ?_, hxm⟩
        rw [dictGet2_dictSet, if_pos (by simp), dictGet_dictSet,
          if_neg hkk]
        exact hbO2
    · rw [hreg]
      refine ⟨bO, ?_, hxm⟩
      rw [dictGet2_dictSet, if_neg hgg]
      exact hbO
  · rw [hreg]
    refine ⟨bO, ?_, hxm⟩
    rw [dictGet2_dictSet, if_neg (by simpa using hg0 n),
      dictGet2_dictSet, if_neg (by simpa using hg0 n)]
    exact hbO

theorem routeFixed_nitric (sg : Registry) (c : Compound)
    (skey stmts clsLower : String) (sg1 : Registry) (p : Bool)
    (h : routeFixed sg c skey stmts clsLower = .ok (sg1, p))
    (hname : strLower c.name = "nitric acid")
    (hp : c.sorted_pictograms ≠ []) :
    p = true ∧ ∃ grp b, dictGet sg "nitric_acid" = some grp ∧
      dictGet grp skey = some b ∧
      sg1 = dictSet sg "nitric_acid" (dictSet grp skey (b ++ [c])) := by
  unfold routeFixed at h
  cases hpc : c.sorted_pictograms with
  | nil => exact absurd hpc hp
  | cons first rest =>
    rw [hpc] at h
    dsimp only at h
    rw [if_pos (by simpa using hname)] at h
    cases happ : registryAppend sg "nitric_acid" skey c with
    | error e =>
      rw [happ] at h
      exact absurd h (by simp [Bind.bind, Except.bind])
    | ok sgv =>
      rw [happ, except_bind_ok] at h
      simp only [pure, Except.pure, Except.ok.injEq, Prod.mk.injEq] at h
      obtain ⟨grp, b, hget, hbk, hset⟩ :=
        registryAppend_inv sg "nitric_acid" skey c sgv happ
      exact ⟨h.2.symm, grp, b, hget, hbk, by rw [← h.1, hset]⟩

theorem sortStep_nitric (st : SortState) (c : Compound) (st2 : SortState)
    (h : sortStep st c = .ok st2)
    (hname : strLower c.name = "nitric acid")
    (hp : c.sorted_pictograms ≠ []) :
    memBucket st2.registry "nitric_acid" (stateKeyOf c.state_room_temp) c := by
  simp only [sortStep] at h
  cases hroute : routeFixed st.registry c (stateKeyOf c.state_room_temp)
      (strLower (String.intercalate " " c.hazard_statements))
      (strLower c.acid_base_class) with
  | error e =>
    rw [hroute] at h
    exact absurd h (by simp [Bind.bind, Except.bind])
  | ok pr =>
    obtain ⟨sg1, p1⟩ := pr
    obtain ⟨hp1, grp, b, hget, hbk, hset⟩ :=
      routeFixed_nitric st.registry c (stateKeyOf c.state_room_temp) _ _
        sg1 p1 hroute hname hp
    subst hp1
    rw [hroute, except_bind_ok] at h
    dsimp only at h
    rw [except_bind_pure] at h
    dsimp only at h
    simp only [pure, Except.pure, eq_self_iff_true, if_true,
      Except.ok.injEq] at h
    rw [← h]
    simp only [hset]
    refine ⟨b ++ [c], ?_, List.mem_append_right _ (by simp)⟩
    rw [dictGet2_dictSet, if_pos (by simp), dictGet_dictSet,
      if_pos (by simp)]

theorem sortLoop_mem_mono : ∀ (l : List Compound) (st st2 : SortState),
    sortLoop st l = .ok st2 → ∀ (g0 : String), (∀ n, g0 ≠ customName n) →
    ∀ (k0 : String) (x : Compound), memBucket st.registry g0 k0 x →
    memBucket st2.registry g0 k0 x := by
  intro l
  induction l with
  | nil =>
    intro st st2 h g0 hg0 k0 x hm
    simp only [sortLoop, Except.ok.injEq] at h
    rw [← h]
    exact hm
  | cons c rest ih =>
    intro st st2 h g0 hg0 k0 x hm
    cases hstep : sortStep st c with
    | error e =>
      rw [show sortLoop st (c :: rest) =
        (sortStep st c >>= fun st1 => sortLoop st1 rest) from rfl,
        hstep] at h
      exact absurd h (by simp [Bind.bind, Except.bind])
    | ok st1 =>
      rw [show sortLoop st (c :: rest) =
        (sortStep st c >>= fun st1 => sortLoop st1 rest) from rfl,
        hstep, except_bind_ok] at h
      exact ih st1 st2 h g0 hg0 k0 x
        (sortStep_mem_mono st c st1 hstep g0 hg0 k0 x hm)

theorem sortLoop_nitric : ∀ (l : List Compound) (st st2 : SortState),
    sortLoop st l = .ok st2 → ∀ c ∈ l,
    strLower c.name = "nitric acid" → c.sorted_pictograms ≠ [] →
    memBucket st2.registry "nitric_acid" (stateKeyOf c.state_room_temp) c := by
  intro l
  induction l with
  | nil => intro st st2 _ c hc; simp at hc
  | cons c0 rest ih =>
    intro st st2 h c hc hname hp
    cases hstep : sortStep st c0 with
    | error e =>
      rw [show sortLoop st (c0 :: rest) =
        (sortStep st c0 >>= fun st1 => sortLoop st1 rest) from rfl,
        hstep] at h
      exact absurd h (by simp [Bind.bind, Except.bind])
    | ok st1 =>
      rw [show sortLoop st (c0 :: rest) =
        (sortStep st c0 >>= fun st1 => sortLoop st1 rest) from rfl,
        hstep, except_bind_ok] at h
      rcases List.mem_cons.mp hc with hceq | hcmem
      · subst hceq
        exact sortLoop_mem_mono rest st1 st2 h "nitric_acid"
          (fun n => (customName_ne_of_second n _ (by decide)).symm)
          (stateKeyOf c.state_room_temp) c
          (sortStep_nitric st c st1 hstep hname hp)
      · exact ih st1 st2 h c hcmem hname hp

/-- Claim C4 as amended: for every compound record whose name
case-insensitively equals `nitric acid` and whose pictogram list is
non-empty, whenever `chemsort_multiple_order_3` completes without a fatal
error the compound has been routed (bypassing the compatibility check) into
the `nitric_acid` group's bucket for its state key. A nitric-acid record
with an empty pictogram list is not special-cased; see the
counterexample. -/
theorem nitric_acid_routing (l : List Compound) (R : Registry)
    (h : chemsort_multiple_order_3 l initialize_storage_groups = .ok R)
    (c : Compound) (hc : c ∈ l)
    (hname : strLower c.name = "nitric acid")
    (hp : c.sorted_pictograms ≠ []) :
    ∃ b, dictGet2 R "nitric_acid" (stateKeyOf c.state_room_temp) = some b ∧
      c ∈ b := by
  simp only [chemsort_multiple_order_3] at h
  cases hloop : sortLoop ⟨initialize_storage_groups, 1,
      (registryKeys initialize_storage_groups).filter
        fun k => strStartsWith k "custom_storage_"⟩
      (l.insertionSort fun a b =>
        compound_priority a ≤ compound_priority b) with
  | error e =>
    rw [hloop] at h
    exact absurd h (by simp [Bind.bind, Except.bind])
  | ok st2 =>
    rw [hloop, except_bind_ok] at h
    simp only [pure, Except.pure, Except.ok.injEq] at h
    have hcmem : c ∈ l.insertionSort fun a b =>
        compound_priority a ≤ compound_priority b :=
      (List.perm_insertionSort _ l).mem_iff.mpr hc
    obtain ⟨b, hb, hxb⟩ := sortLoop_nitric _ _ _ hloop c hcmem hname hp
    exact ⟨b, by rw [← h]; exact hb, hxb⟩

/-- Witness for `nitric_acid_routing`: a concrete nitric-acid record with a
pictogram ends in the `nitric_acid` liquid bucket. -/
theorem nitric_acid_routing_witness :
    ∃ b, dictGet2 (dictSet initialize_storage_groups "nitric_acid"
        (dictSet default_group "liquid"
          ([] ++ [⟨"Nitric Acid", ["Oxidizer"], [], "acid", "liquid"⟩])))
      "nitric_acid"
      (stateKeyOf (Compound.state_room_temp
        ⟨"Nitric Acid", ["Oxidizer"], [], "acid", "liquid"⟩)) = some b ∧
      (⟨"Nitric Acid", ["Oxidizer"], [], "acid", "liquid"⟩ : Compound)
        ∈ b :=
  nitric_acid_routing
    [⟨"Nitric Acid", ["Oxidizer"], [], "acid", "liquid"⟩]
    (dictSet initialize_storage_groups "nitric_acid"
      (dictSet default_group "liquid"
        ([] ++ [⟨"Nitric Acid", ["Oxidizer"], [], "acid", "liquid"⟩])))
    (by rfl)
    ⟨"Nitric Acid", ["Oxidizer"], [], "acid", "liquid"⟩
    (by simp) (by decide) (by decide)

/-! ### Acid/base segregation (C5) -/

/-- The three groups the sorter fills without any compatibility check. -/
def bypassGroup (g : String) : Prop :=
  g = "nitric_acid" ∨ g = "explosive" ∨ g = "compressed_gas"

instance (g : String) : Decidable (bypassGroup g) := by
  unfold bypassGroup
  infer_instance

/-- Two compounds whose acid/base classes do not trigger rule 1. -/
def noClash (x y : Compound) : Prop :=
  ¬(strContains x.acid_base_class "acid" = true ∧
    strContains y.acid_base_class "base" = true) ∧
  ¬(strContains x.acid_base_class "base" = true ∧
    strContains y.acid_base_class "acid" = true)

theorem noClash_symm : Symmetric noClash := by
  intro x y h
  exact ⟨fun hcl => h.2 ⟨hcl.2, hcl.1⟩, fun hcl => h.1 ⟨hcl.2, hcl.1⟩⟩

theorem compat_noClash (e c : Compound) (g : String)
    (h : is_chemically_compatible e.sorted_pictograms c.sorted_pictograms
      e.acid_base_class c.acid_base_class e.state_room_temp
      c.state_room_temp g = true) : noClash e c := by
  have h1 : ((strContains e.acid_base_class "acid" &&
      strContains c.acid_base_class "base") ||
      (strContains e.acid_base_class "base" &&
        strContains c.acid_base_class "acid")) = false := by
    by_cases hd : ((strContains e.acid_base_class "acid" &&
        strContains c.acid_base_class "base") ||
        (strContains e.acid_base_class "base" &&
          strContains c.acid_base_class "acid")) = true
    · rw [compat_eq_not_or, hd] at h
      simp at h
    · simpa using hd
  constructor
  · intro hcl
    rw [hcl.1, hcl.2] at h1
    simp at h1
  · intro hcl
    rw [hcl.1, hcl.2] at h1
    simp at h1

/-- Invariant of the sorter: buckets of non-bypass groups are pairwise free
of acid/base clashes, and the bypass buckets hold only the compounds their
route conditions allow. -/
def InvS (sg : Registry) : Prop :=
  ∀ g grp k b, dictGet sg g = some grp → dictGet grp k = some b →
    (¬bypassGroup g → b.Pairwise noClash) ∧
    (g = "nitric_acid" → ∀ x ∈ b, strLower x.name = "nitric acid") ∧
    (g = "explosive" → ∀ x ∈ b,
      x.sorted_pictograms.head? = some "Explosive") ∧
    (g = "compressed_gas" → ∀ x ∈ b,
      x.sorted_pictograms.head? = some "Compressed Gas")

/-- Invariant on the tracked overflow-group names: none is a bypass group. -/
def InvC (customs : List String) : Prop := ∀ g ∈ customs, ¬bypassGroup g

theorem customName_not_bypass (n : Nat) : ¬bypassGroup (customName n) := by
  intro hby
  rcases hby with h | h | h <;>
    exact customName_ne_of_second n _ (by decide) h

theorem checked_not_bypass :
    ∀ g ∈ checkedFixedNames, ¬bypassGroup g := by
  decide

theorem dictGet_mem {α : Type} (d : Dict α) (k : String) (v : α)
    (h : dictGet d k = some v) : (k, v) ∈ d := by
  induction d with
  | nil => simp [dictGet] at h
  | cons p t ih =>
    obtain ⟨k1, v1⟩ := p
    simp only [dictGet] at h
    by_cases h2 : (k1 == k) = true
    · rw [if_pos h2] at h
      have hk1 : k1 = k := by simpa using h2
      have hv : v1 = v := by simpa using h
      rw [← hk1, hv]
      simp
    · rw [if_neg h2] at h
      simp [ih h]

theorem init_group_shape (g : String) (grp : StorageGroup)
    (hg : dictGet initialize_storage_groups g = some grp) :
    grp = default_group ∨ grp = default_group_gas := by
  have hm := dictGet_mem _ _ _ hg
  simp only [initialize_storage_groups, List.mem_cons, List.not_mem_nil,
    or_false, Prod.mk.injEq] at hm
  rcases hm with ⟨-, h⟩ | ⟨-, h⟩ | ⟨-, h⟩ | ⟨-, h⟩ | ⟨-, h⟩ | ⟨-, h⟩ |
    ⟨-, h⟩ | ⟨-, h⟩ | ⟨-, h⟩ | ⟨-, h⟩ | ⟨-, h⟩ | ⟨-, h⟩ | ⟨-, h⟩ |
    ⟨-, h⟩ | ⟨-, h⟩ <;>
    first
      | exact Or.inl h
      | exact Or.inr h

theorem default_group_bucket (k : String) (b : List Compound)
    (h : dictGet default_group k = some b) : b = [] := by
  unfold default_group at h
  unfold dictGet at h
  by_cases h1 : ("solid" == k) = true
  · rw [if_pos h1] at h
    exact (Option.some.inj h).symm
  rw [if_neg h1] at h
  unfold dictGet at h
  by_cases h2 : ("liquid" == k) = true
  · rw [if_pos h2] at h
    exact (Option.some.inj h).symm
  · rw [if_neg h2] at h
    unfold dictGet at h
    exact absurd h (by simp)

theorem default_group_gas_bucket (k : String) (b : List Compound)
    (h : dictGet default_group_gas k = some b) : b = [] := by
  unfold default_group_gas at h
  unfold dictGet at h
  by_cases h1 : ("gas" == k) = true
  · rw [if_pos h1] at h
    exact (Option.some.inj h).symm
  · rw [if_neg h1] at h
    unfold dictGet at h
    exact absurd h (by simp)

theorem init_buckets_empty : ∀ (g : String) (grp : StorageGroup)
    (k : String) (b : List Compound),
    dictGet initialize_storage_groups g = some grp →
    dictGet grp k = some b → b = [] := by
  intro g grp k b hg hk
  rcases init_group_shape g grp hg with h | h <;> subst h
  · exact default_group_bucket k b hk
  · exact default_group_gas_bucket k b hk

theorem InvS_init : InvS initialize_storage_groups := by
  intro g grp k b hg hk
  have hb := init_buckets_empty g grp k b hg hk
  subst hb
  exact ⟨fun _ => List.Pairwise.nil, fun _ x hx => absurd hx (by simp),
    fun _ x hx => absurd hx (by simp), fun _ x hx => absurd hx (by simp)⟩

theorem sortStep_inv (st : SortState) (c : Compound) (st2 : SortState)
    (h : sortStep st c = .ok st2) (hs : InvS st.registry)
    (hcu : InvC st.customs) : InvS st2.registry ∧ InvC st2.customs := by
  rcases sortStep_effect st c st2 h with
    ⟨g, grp, b, hget, hbk, hreg, hcus, hkind⟩ | ⟨n, hreg, hcus⟩
  · constructor
    swap
    · rw [hcus]
      exact hcu
    rw [hreg]
    intro g2 grp2 k2 b2 hg2 hk2
    rw [dictGet_dictSet] at hg2
    by_cases hgg : (g2 == g) = true
    · have hgeq : g2 = g := by simpa using hgg
      subst hgeq
      rw [if_pos hgg] at hg2
      have hgrp2 : grp2 = dictSet grp (stateKeyOf c.state_room_temp)
          (b ++ [c]) := by
        exact (by simpa using hg2 : _ = grp2).symm
      subst hgrp2
      rw [dictGet_dictSet] at hk2
      by_cases hkk : (k2 == stateKeyOf c.state_room_temp) = true
      · rw [if_pos hkk] at hk2
        have hb2 : b2 = b ++ [c] := by
          exact (by simpa using hk2 : _ = b2).symm
        subst hb2
        have hold := hs g2 grp (stateKeyOf c.state_room_temp) b hget hbk
        rcases hkind with ⟨hgn, hnm⟩ | ⟨hgn, hhead⟩ | ⟨hgn, hhead, _⟩ |
          ⟨hgmem, hcomp⟩
        · subst hgn
          refine ⟨fun hnb => absurd (Or.inl rfl) hnb, ?_, ?_, ?_⟩
          · intro _ x hx
            rcases List.mem_append.mp hx with hx | hx
            · exact hold.2.1 rfl x hx
            · have : x = c := by simpa using hx
              rw [this]
              exact hnm
          · intro heq
            exact absurd heq (by decide)
          · intro heq
            exact absurd heq (by decide)
        · subst hgn
          refine ⟨fun hnb => absurd (Or.inr (Or.inr rfl)) hnb, ?_, ?_, ?_⟩
          · intro heq
            exact absurd heq (by decide)
          · intro heq
            exact absurd heq (by decide)
          · intro _ x hx
            rcases List.mem_append.mp hx with hx | hx
            · exact hold.2.2.2 rfl x hx
            · have : x = c := by simpa using hx
              rw [this]
              exact hhead
        · subst hgn
          refine ⟨fun hnb => absurd (Or.inr (Or.inl rfl)) hnb, ?_, ?_, ?_⟩
          · intro heq
            exact absurd heq (by decide)
          · intro _ x hx
            rcases List.mem_append.mp hx with hx | hx
            · exact hold.2.2.1 rfl x hx
            · have : x = c := by simpa using hx
              rw [this]
              exact hhead
          · intro heq
            exact absurd heq (by decide)
        · have hnby : ¬bypassGroup g2 := by
            rcases hgmem with hgm | hgm
            · exact checked_not_bypass g2 hgm
            · exact hcu g2 hgm
          refine ⟨fun _ => ?_, fun heq => absurd (Or.inl heq) hnby,
            fun heq => absurd (Or.inr (Or.inl heq)) hnby,
            fun heq => absurd (Or.inr (Or.inr heq)) hnby⟩
          rw [List.pairwise_append]
          refine ⟨hold.1 hnby, by simp, ?_⟩
          intro x hx y hy
          have hyc : y = c := by simpa using hy
          rw [hyc]
          rcases hcomp with hb0 | hall
          · rw [hb0] at hx
            exact absurd hx (by simp)
          · exact compat_noClash x c g2
              ((List.all_eq_true.mp hall x hx))
      · rw [if_neg hkk] at hk2
        exact hs g2 grp k2 b2 hget hk2
    · rw [if_neg hgg] at hg2
      exact hs g2 grp2 k2 b2 hg2 hk2
  · constructor
    swap
    · rw [hcus]
      intro g2 hg2
      rcases List.mem_append.mp hg2 with hg2 | hg2
      · exact hcu g2 hg2
      · have : g2 = customName n := by simpa using hg2
        rw [this]
        exact customName_not_bypass n
    rw [hreg]
    intro g2 grp2 k2 b2 hg2 hk2
    rw [dictGet_dictSet] at hg2
    by_cases hgg : (g2 == customName n) = true
    · have hgeq : g2 = customName n := by simpa using hgg
      rw [if_pos hgg] at hg2
      have hgrp2 : grp2 = dictSet grpAll3 (stateKeyOf c.state_room_temp)
          ([] ++ [c]) := by
        exact (by simpa using hg2 : _ = grp2).symm
      subst hgrp2
      have hb2 : b2 = [c] ∨ b2 = [] := by
        rw [dictGet_dictSet] at hk2
        by_cases hkk : (k2 == stateKeyOf c.state_room_temp) = true
        · rw [if_pos hkk] at hk2
          exact Or.inl (by simpa using hk2.symm)
        · rw [if_neg hkk] at hk2
          unfold grpAll3 at hk2
          unfold dictGet at hk2
          by_cases h1 : ("liquid" == k2) = true
          · rw [if_pos h1] at hk2
            exact Or.inr (by simpa using hk2.symm)
          rw [if_neg h1] at hk2
          unfold dictGet at hk2
          by_cases h2 : ("solid" == k2) = true
          · rw [if_pos h2] at hk2
            exact Or.inr (by simpa using hk2.symm)
          rw [if_neg h2] at hk2
          unfold dictGet at hk2
          by_cases h3 : ("gas" == k2) = true
          · rw [if_pos h3] at hk2
            exact Or.inr (by simpa using hk2.symm)
          · rw [if_neg h3] at hk2
            unfold dictGet at hk2
            exact absurd hk2 (by simp)
      have hclauses : ∀ (s : String), g2 = s → bypassGroup s → False := by
        intro s hseq hby
        apply customName_not_bypass n
        rw [← hgeq, hseq]
        exact hby
      refine ⟨fun _ => ?_, ?_, ?_, ?_⟩
      · rcases hb2 with hb2 | hb2 <;> rw [hb2] <;> simp
      · intro heq
        exact absurd (Or.inl rfl) (fun hby =>
          hclauses "nitric_acid" heq hby)
      · intro heq
        exact absurd (Or.inr (Or.inl rfl)) (fun hby =>
          hclauses "explosive" heq hby)
      · intro heq
        exact absurd (Or.inr (Or.inr rfl)) (fun hby =>
          hclauses "compressed_gas" heq hby)
    · rw [if_neg hgg] at hg2
      rw [dictGet_dictSet, if_neg hgg] at hg2
      exact hs g2 grp2 k2 b2 hg2 hk2

theorem sortLoop_inv : ∀ (l : List Compound) (st st2 : SortState),
    sortLoop st l = .ok st2 → InvS st.registry → InvC st.customs →
    InvS st2.registry ∧ InvC st2.customs := by
  intro l
  induction l with
  | nil =>
    intro st st2 h hs hc
    simp only [sortLoop, Except.ok.injEq] at h
    rw [← h]
    exact ⟨hs, hc⟩
  | cons c rest ih =>
    intro st st2 h hs hc
    cases hstep : sortStep st c with
    | error e =>
      rw [show sortLoop st (c :: rest) =
        (sortStep st c >>= fun st1 => sortLoop st1 rest) from rfl,
        hstep] at h
      exact absurd h (by simp [Bind.bind, Except.bind])
    | ok st1 =>
      rw [show sortLoop st (c :: rest) =
        (sortStep st c >>= fun st1 => sortLoop st1 rest) from rfl,
        hstep, except_bind_ok] at h
      obtain ⟨hs1, hc1⟩ := sortStep_inv st c st1 hstep hs hc
      exact ih st1 st2 h hs1 hc1

/-- Claim C5 as amended: after a successful run of
`chemsort_multiple_order_3` on a freshly initialised registry, an acid-tagged
and a base-tagged compound, each with pictogram list `["Corrosive"]` and
liquid state and neither named `nitric acid` (case-insensitively), can only
occupy the same (group, state) bucket by being the same record — two such
distinct compounds never share a bucket. (Without the nitric-acid proviso the
claim is false: the bypass routes skip the acid/base rule; see the
counterexample.) -/
theorem acid_base_segregation (l : List Compound) (R : Registry)
    (h : chemsort_multiple_order_3 l initialize_storage_groups = .ok R)
    (x y : Compound)
    (hxcls : strContains x.acid_base_class "acid" = true)
    (hycls : strContains y.acid_base_class "base" = true)
    (hxp : x.sorted_pictograms = ["Corrosive"])
    (hyp : y.sorted_pictograms = ["Corrosive"])
    (hxs : x.state_room_temp = "liquid")
    (hys : y.state_room_temp = "liquid")
    (hxn : ¬strLower x.name = "nitric acid")
    (hyn : ¬strLower y.name = "nitric acid")
    (g k : String) (grp : StorageGroup) (b : List Compound)
    (hg : dictGet R g = some grp) (hk : dictGet grp k = some b)
    (hx : x ∈ b) (hy : y ∈ b) : x = y := by
  simp only [chemsort_multiple_order_3] at h
  cases hloop : sortLoop ⟨initialize_storage_groups, 1,
      (registryKeys initialize_storage_groups).filter
        fun k2 => strStartsWith k2 "custom_storage_"⟩
      (l.insertionSort fun a b2 =>
        compound_priority a ≤ compound_priority b2) with
  | error e =>
    rw [hloop] at h
    exact absurd h (by simp [Bind.bind, Except.bind])
  | ok st2 =>
    rw [hloop, except_bind_ok] at h
    simp only [pure, Except.pure, Except.ok.injEq] at h
    have hic : InvC ((registryKeys initialize_storage_groups).filter
        fun k2 => strStartsWith k2 "custom_storage_") := by
      have he : ((registryKeys initialize_storage_groups).filter
          fun k2 => strStartsWith k2 "custom_storage_") = [] := by decide
      rw [he]
      intro g2 hg2
      exact absurd hg2 (by simp)
    obtain ⟨hIS, _⟩ := sortLoop_inv _ _ _ hloop InvS_init hic
    have hR : InvS R := by
      rw [← h]
      exact hIS
    have hcl := hR g grp k b hg hk
    by_cases hby : bypassGroup g
    · exfalso
      rcases hby with hgn | hgn | hgn
      · exact hxn (hcl.2.1 hgn x hx)
      · have hh := hcl.2.2.1 hgn x hx
        rw [hxp] at hh
        exact absurd hh (by decide)
      · have hh := hcl.2.2.2 hgn x hx
        rw [hxp] at hh
        exact absurd hh (by decide)
    · by_cases hxy : x = y
      · exact hxy
      · exfalso
        have hnc := List.Pairwise.forall noClash_symm (hcl.1 hby) hx hy hxy
        exact hnc.1 ⟨hxcls, hycls⟩

/-- Witness for `acid_base_segregation` at a concrete run: a single
amphoteric compound (class containing both `acid` and `base`) occupies a
bucket alone, and the theorem instantiated with it on both sides closes. -/
theorem acid_base_segregation_witness :
    (⟨"amphoteric", ["Corrosive"], [], "acid base", "liquid"⟩ : Compound) =
      ⟨"amphoteric", ["Corrosive"], [], "acid base", "liquid"⟩ :=
  acid_base_segregation
    [⟨"amphoteric", ["Corrosive"], [], "acid base", "liquid"⟩]
    (dictSet initialize_storage_groups "base_irritant"
      (dictSet default_group "liquid"
        ([] ++ [⟨"amphoteric", ["Corrosive"], [], "acid base", "liquid"⟩])))
    (by rfl)
    ⟨"amphoteric", ["Corrosive"], [], "acid base", "liquid"⟩
    ⟨"amphoteric", ["Corrosive"], [], "acid base", "liquid"⟩
    (by decide) (by decide) rfl rfl rfl rfl (by decide) (by decide)
    "base_irritant" "liquid"
    (dictSet default_group "liquid"
      ([] ++ [⟨"amphoteric", ["Corrosive"], [], "acid base", "liquid"⟩]))
    ([] ++ [⟨"amphoteric", ["Corrosive"], [], "acid base", "liquid"⟩])
    (by decide) (by decide) (by decide) (by decide)

/-! ### Overflow fallback search (C6) -/

/-- Whether the compatibility check accepts compound `c` into group `g`. -/
def groupAccepts (sg : Registry) (skey : String) (c : Compound)
    (g : String) : Bool :=
  match isCompatibleWithGroup sg g skey c with
  | .ok true => true
  | _ => false

/-- Claim C6 as amended. First part: the fallback loop scans the tracked
overflow groups in creation order and places the compound, via an
unconditional append, into the first group whose compatibility check accepts
it (`List.find?`), creating nothing when one accepts. Second part: a
compound with no pictograms whose `none`-group check fails skips the
overflow search entirely — the step goes straight to overflow-group
creation, so such compounds are never offered to the existing
`custom_storage_*` groups. -/
theorem overflow_fallback_search :
    (∀ (sg : Registry) (customs : List String) (skey : String)
      (c : Compound),
      (∀ g ∈ customs, ∃ bv, isCompatibleWithGroup sg g skey c = .ok bv) →
      tryCustoms sg customs skey c =
        match customs.find? (groupAccepts sg skey c) with
        | some g =>
          (registryAppend sg g skey c) >>= fun sg1 => pure (sg1, true)
        | none => .ok (sg, false)) ∧
    (∀ (st : SortState) (c : Compound), c.sorted_pictograms = [] →
      condAppend st.registry "none" (stateKeyOf c.state_room_temp) c =
        .ok (st.registry, false) →
      sortStep st c = createOverflow st.registry st.counter st.customs
        (stateKeyOf c.state_room_temp) c) := by
  constructor
  · intro sg customs skey c
    induction customs with
    | nil =>
      intro _
      simp [tryCustoms]
    | cons g rest ih =>
      intro hall
      obtain ⟨bv, hbv⟩ := hall g (by simp)
      rw [show tryCustoms sg (g :: rest) skey c =
        ((isCompatibleWithGroup sg g skey c) >>= fun ok =>
          if ok then (registryAppend sg g skey c) >>= fun sg1 =>
            pure (sg1, true)
          else tryCustoms sg rest skey c) from rfl, hbv, except_bind_ok]
      have hacc : groupAccepts sg skey c g = bv := by
        unfold groupAccepts
        rw [hbv]
        cases bv <;> rfl
      cases bv with
      | true =>
        rw [if_pos rfl, List.find?_cons_of_pos _ (by rw [hacc])]
      | false =>
        rw [if_neg (by simp),
          List.find?_cons_of_neg _ (by rw [hacc]; simp)]
        exact ih (fun g2 hg2 => hall g2 (by simp [hg2]))
  · intro st c hp hnone
    have hroute : routeFixed st.registry c (stateKeyOf c.state_room_temp)
        (strLower (String.intercalate " " c.hazard_statements))
        (strLower c.acid_base_class) = .ok (st.registry, false) := by
      unfold routeFixed
      rw [hp]
    simp only [sortStep, hroute, except_bind_ok]
    rw [if_neg (by simp)]
    rw [if_pos (by rw [hp]; rfl)]
    rw [hnone, except_bind_ok]
    rw [if_neg (by simp)]

/-- Witness for `overflow_fallback_search`: with one overflow group present
that accepts the compound, the fallback places it there. -/
theorem overflow_fallback_search_witness :
    tryCustoms (dictSet initialize_storage_groups "custom_storage_1" grpAll3)
      ["custom_storage_1"] "solid" ⟨"b", [], [], "base", "solid"⟩ =
      match (["custom_storage_1"].find?
        (groupAccepts
          (dictSet initialize_storage_groups "custom_storage_1" grpAll3)
          "solid" ⟨"b", [], [], "base", "solid"⟩)) with
      | some g =>
        (registryAppend
          (dictSet initialize_storage_groups "custom_storage_1" grpAll3) g
          "solid" ⟨"b", [], [], "base", "solid"⟩) >>= fun sg1 =>
          pure (sg1, true)
      | none =>
        .ok (dictSet initialize_storage_groups "custom_storage_1" grpAll3,
          false) :=
  overflow_fallback_search.1
    (dictSet initialize_storage_groups "custom_storage_1" grpAll3)
    ["custom_storage_1"] "solid" ⟨"b", [], [], "base", "solid"⟩
    (fun g hg => by
      have hgeq : g = "custom_storage_1" := by simpa using hg
      rw [hgeq]
      exact ⟨true, rfl⟩)
